import Mathlib

/-!
Shallow embedding of the traffic simulation core of the repository:
the actor pool / simulation engine (`src/simulation/TrafficEngine.ts`,
"FULL UPDATED VERSION") and the signal phase controller
(`src/simulation/TrafficLights.ts`).

Modelling conventions:
* JavaScript numbers are embedded as rationals (`ℚ`); all arithmetic the
  embedded code performs on the values reachable here is exact.
* `Math.random()`-derived values are passed in explicitly (`SpawnRand`),
  so every run of the embedded code is one possible run of the source.
* The in-place mutation of pool slots is modelled by explicit state
  passing: the pool is a `List Entity`, a mutation of slot `i` is
  `List.set`, and the per-lane iteration over the `laneVehicles` array of
  object references is a fold over the fixed list of slot indices while
  field reads go through the evolving pool (matching the aliasing
  semantics of the source).
* `Math.sqrt` appears only in `tangentOnPath`, applied to the squared
  lengths of the eight lane segments, which are perfect squares (1600);
  `ratSqrt` computes those square roots exactly, as `Math.sqrt` does.
-/

inductive EntityType
  | Car
  | Truck
  | Bicycle
  | Pedestrian
  deriving DecidableEq

structure Vec3 where
  x : ℚ
  y : ℚ
  z : ℚ
  deriving DecidableEq

structure Entity where
  id : String
  type : EntityType
  position : Vec3
  dir : Vec3
  speed : ℚ
  active : Bool
  pathId : Int
  progress : ℚ
  scale : Vec3
  color : ℕ
  deriving DecidableEq

/-- `export const ROAD_EXTENT = 20`. -/
def ROAD_EXTENT : ℚ := 20

/-- `export const INTERSECTION_SIZE = 8` (center square ±4). -/
def INTERSECTION_SIZE : ℚ := 8

/-- `const STOP_LINE = INTERSECTION_SIZE / 2` (= 4.0). -/
def STOP_LINE : ℚ := INTERSECTION_SIZE / 2

/-- `const LANE_OFFSETS = [-1.5, -0.5, 0.5, 1.5]`. -/
def LANE_OFFSETS : List ℚ := [-3/2, -1/2, 1/2, 3/2]

/-- `export const PATHS`: 8 lanes, each a straight segment (start, end).
Lanes 0,1: NS (south → north); 2,3: SN; 4,5: WE; 6,7: EW. -/
def PATHS : List (Vec3 × Vec3) :=
  [ (⟨LANE_OFFSETS.getD 0 0, 0, -ROAD_EXTENT⟩, ⟨LANE_OFFSETS.getD 0 0, 0, ROAD_EXTENT⟩),
    (⟨LANE_OFFSETS.getD 1 0, 0, -ROAD_EXTENT⟩, ⟨LANE_OFFSETS.getD 1 0, 0, ROAD_EXTENT⟩),
    (⟨LANE_OFFSETS.getD 2 0, 0, ROAD_EXTENT⟩, ⟨LANE_OFFSETS.getD 2 0, 0, -ROAD_EXTENT⟩),
    (⟨LANE_OFFSETS.getD 3 0, 0, ROAD_EXTENT⟩, ⟨LANE_OFFSETS.getD 3 0, 0, -ROAD_EXTENT⟩),
    (⟨-ROAD_EXTENT, 0, LANE_OFFSETS.getD 2 0⟩, ⟨ROAD_EXTENT, 0, LANE_OFFSETS.getD 2 0⟩),
    (⟨-ROAD_EXTENT, 0, LANE_OFFSETS.getD 3 0⟩, ⟨ROAD_EXTENT, 0, LANE_OFFSETS.getD 3 0⟩),
    (⟨ROAD_EXTENT, 0, LANE_OFFSETS.getD 0 0⟩, ⟨-ROAD_EXTENT, 0, LANE_OFFSETS.getD 0 0⟩),
    (⟨ROAD_EXTENT, 0, LANE_OFFSETS.getD 1 0⟩, ⟨-ROAD_EXTENT, 0, LANE_OFFSETS.getD 1 0⟩) ]

/-- `const SCALES` (visual size per type). -/
def SCALES : EntityType → Vec3
  | .Car => ⟨6/5, 3/5, 12/5⟩
  | .Truck => ⟨6/5, 6/5, 4⟩
  | .Bicycle => ⟨2/5, 3/5, 6/5⟩
  | .Pedestrian => ⟨2/5, 17/10, 2/5⟩

/-- `const SPEEDS` (nominal speed per type). -/
def SPEEDS : EntityType → ℚ
  | .Car => 8
  | .Truck => 6
  | .Bicycle => 7
  | .Pedestrian => 2

/-- `private minSpacing = 0.06`. -/
def minSpacing : ℚ := 3/50

/-- Default value used for out-of-range pool reads; never hit by the code
paths modelled here (the source indexes only in range).  Inactive, so it
is exempt from all invariants about active actors. -/
def dummyEntity : Entity :=
  { id := ""
    type := .Car
    position := ⟨0, 0, 0⟩
    dir := ⟨0, 0, 1⟩
    speed := 0
    active := false
    pathId := 0
    progress := 0
    scale := SCALES .Car
    color := 0 }

/-- Exact rational square root for perfect-square inputs (the only inputs
`Math.sqrt` receives from `tangentOnPath`: each lane has squared length
1600). -/
def ratSqrt (q : ℚ) : ℚ :=
  (Nat.sqrt q.num.toNat : ℚ) / (Nat.sqrt q.den : ℚ)

/-- `private pointOnPath(pathId, progress)`. -/
def pointOnPath (pathId : ℕ) (progress : ℚ) : Vec3 :=
  let ab := PATHS.getD pathId (⟨0, 0, 0⟩, ⟨0, 0, 0⟩)
  let a := ab.1
  let b := ab.2
  ⟨a.x + (b.x - a.x) * progress, 0, a.z + (b.z - a.z) * progress⟩

/-- `private tangentOnPath(pathId)`; `len = Math.sqrt(dx*dx+dz*dz) || 1`. -/
def tangentOnPath (pathId : ℕ) : Vec3 :=
  let ab := PATHS.getD pathId (⟨0, 0, 0⟩, ⟨0, 0, 0⟩)
  let dx := ab.2.x - ab.1.x
  let dz := ab.2.z - ab.1.z
  let s := ratSqrt (dx * dx + dz * dz)
  let len := if s = 0 then 1 else s
  ⟨dx / len, 0, dz / len⟩

/-- The optional `lights` argument of `update`: `{ NS: boolean; EW: boolean }`. -/
structure Lights where
  NS : Bool
  EW : Bool
  deriving DecidableEq

/-- `lights?.NS ?? true`. -/
def greenNS (lights : Option Lights) : Bool :=
  (lights.map fun l => l.NS).getD true

/-- `lights?.EW ?? true`. -/
def greenEW (lights : Option Lights) : Bool :=
  (lights.map fun l => l.EW).getD true

/-- `const speed = ent.speed || SPEEDS[ent.type]` (`0` is the only falsy
rational). -/
def effSpeed (e : Entity) : ℚ :=
  if e.speed = 0 then SPEEDS e.type else e.speed

/-- Step 1 of the per-actor update:
`let next = ent.progress + (speed * dt) / (ROAD_EXTENT * 2)`. -/
def candidateProgress (dt : ℚ) (ent : Entity) : ℚ :=
  ent.progress + effSpeed ent * dt / (ROAD_EXTENT * 2)

/-- Steps 1–2 of the per-actor update: candidate progress, then the
red-light stop-line gate.  The gate clamps to the current progress only
when the current world position is outside the footprint and the
candidate world position (along the lane's travel axis) is inside it. -/
def gatedProgress (dt : ℚ) (lights : Option Lights) (lane : ℕ) (ent : Entity) : ℚ :=
  let speed := effSpeed ent
  let next := candidateProgress dt ent
  let isNS := lane < 4
  let green := if isNS then greenNS lights else greenEW lights
  if green then next
  else if isNS then
    let nextZ := ent.position.z + ent.dir.z * speed * dt
    if |ent.position.z| > STOP_LINE ∧ |nextZ| ≤ STOP_LINE then ent.progress else next
  else
    let nextX := ent.position.x + ent.dir.x * speed * dt
    if |ent.position.x| > STOP_LINE ∧ |nextX| ≤ STOP_LINE then ent.progress else next

/-- Step 3: spacing clamp against
`laneVehicles.find((v) => v.progress > ent.progress)` — a scan of the
sorted lane slice in order, reading the *current* (possibly
already-updated-this-tick) progress of each member. -/
def spacedProgress (pool : List Entity) (order : List ℕ) (ent : Entity)
    (next : ℚ) : ℚ :=
  match order.find? (fun j => decide ((pool.getD j dummyEntity).progress > ent.progress)) with
  | some j =>
    let ahead := (pool.getD j dummyEntity).progress
    if ahead - next < minSpacing then max ent.progress (ahead - minSpacing) else next
  | none => next

/-- Step 4: `if (next > 1) next -= 1`. -/
def wrapProgress (next : ℚ) : ℚ :=
  if next > 1 then next - 1 else next

/-- The final progress committed for the actor in slot `i`. -/
def stepNext (dt : ℚ) (lights : Option Lights) (lane : ℕ) (order : List ℕ)
    (pool : List Entity) (i : ℕ) : ℚ :=
  let ent := pool.getD i dummyEntity
  wrapProgress (spacedProgress pool order ent (gatedProgress dt lights lane ent))

/-- One iteration of `for (const ent of laneVehicles)`: commit the final
progress and recompute position/heading from the geometry. -/
def stepVehicle (dt : ℚ) (lights : Option Lights) (lane : ℕ) (order : List ℕ)
    (pool : List Entity) (i : ℕ) : List Entity :=
  let ent := pool.getD i dummyEntity
  let p := stepNext dt lights lane order pool i
  pool.set i
    { ent with
      progress := p
      position := pointOnPath lane p
      dir := tangentOnPath lane }

/-- Indices of `this.entities.filter((e) => e.active && e.pathId === lane
&& e.type !== "Pedestrian")`, in pool order. -/
def laneIndices (pool : List Entity) (lane : ℕ) : List ℕ :=
  (List.range pool.length).filter fun i =>
    let e := pool.getD i dummyEntity
    e.active && e.pathId == (lane : Int) && !(e.type == EntityType.Pedestrian)

/-- Stable insertion of an index into a key-sorted list (ties keep the
existing element first, matching the stability of `Array.prototype.sort`). -/
def insertKeyed (key : ℕ → ℚ) (j : ℕ) : List ℕ → List ℕ
  | [] => [j]
  | k :: rest => if key j ≤ key k then j :: k :: rest else k :: insertKeyed key j rest

/-- Stable sort by key, ascending — the model of
`.sort((a, b) => a.progress - b.progress)` (ES2019+ `Array.prototype.sort`
is stable; ties keep pool order). -/
def sortKeyed (key : ℕ → ℚ) (l : List ℕ) : List ℕ :=
  l.foldr (insertKeyed key) []

/-- The `laneVehicles` array: slot indices of the active non-pedestrian
actors of `lane`, sorted by progress ascending (stable). -/
def laneOrder (pool : List Entity) (lane : ℕ) : List ℕ :=
  sortKeyed (fun i => (pool.getD i dummyEntity).progress) (laneIndices pool lane)

/-- The body of `for (let lane = 0; lane < PATHS.length; lane++)`. -/
def updateLane (dt : ℚ) (lights : Option Lights) (lane : ℕ)
    (pool : List Entity) : List Entity :=
  let order := laneOrder pool lane
  order.foldl (fun p i => stepVehicle dt lights lane order p i) pool

/-- The pedestrian pass of `update` applied to one entity: free walkers
advance along `dir`; on leaving `±(ROAD_EXTENT + 2)` the heading is
negated and the position is left unchanged. -/
def pedStep (dt : ℚ) (e : Entity) : Entity :=
  if e.active = true ∧ e.type = EntityType.Pedestrian then
    let dx := e.dir.x
    let dz := e.dir.z
    let step := e.speed * dt
    let x := e.position.x + dx * step
    let z := e.position.z + dz * step
    let limit := ROAD_EXTENT + 2
    if x > limit ∨ x < -limit ∨ z > limit ∨ z < -limit then
      { e with dir := ⟨-dx, 0, -dz⟩ }
    else
      { e with position := ⟨x, e.position.y, z⟩ }
  else e

/-- `TrafficEngine.update(dt, lights?)`: the eight lane passes in order,
then the pedestrian pass over the whole pool. -/
def update (dt : ℚ) (lights : Option Lights) (pool : List Entity) : List Entity :=
  ((List.range PATHS.length).foldl (fun p lane => updateLane dt lights lane p) pool).map
    (pedStep dt)

/-- `SpawnOptions`. -/
structure SpawnOptions where
  type : Option EntityType
  pathId : Option ℕ
  speed : Option ℚ

/-- The random draws `spawn` makes, passed in explicitly: `makeId()`,
`Math.floor(Math.random() * 5)` (color), `Math.random()` (progress),
`Math.floor(Math.random() * PATHS.length)` (lane), and
`Math.floor(Math.random() * 4)` (pedestrian side). -/
structure SpawnRand where
  newId : String
  colorIdx : ℕ
  progress : ℚ
  laneChoice : ℕ
  side : ℕ

/-- `this.entities.find((e) => !e.active)`, as an index. -/
def findFreeIdx (pool : List Entity) : Option ℕ :=
  (List.range pool.length).find? fun i => !(pool.getD i dummyEntity).active

/-- Pedestrian spawn placement: the `switch (side)` of the source. -/
def pedSideSpawn (side : ℕ) : Vec3 × Vec3 :=
  let offset := ROAD_EXTENT - 2
  if side = 0 then (⟨-offset, 0, 10⟩, ⟨1, 0, 0⟩)
  else if side = 1 then (⟨10, 0, offset⟩, ⟨0, 0, -1⟩)
  else if side = 2 then (⟨offset, 0, -10⟩, ⟨-1, 0, 0⟩)
  else (⟨-10, 0, -offset⟩, ⟨0, 0, 1⟩)

/-- The field assignments `spawn` performs on the free slot `i`
(common part, then the pedestrian / vehicle-and-bike branch). -/
def spawnedEntity (opts : SpawnOptions) (r : SpawnRand) (pool : List Entity)
    (i : ℕ) : Entity :=
  let slot := pool.getD i dummyEntity
  let ty := opts.type.getD .Car
  let base :=
    { slot with
      id := r.newId
      type := ty
      scale := SCALES ty
      color := r.colorIdx % 5
      speed := opts.speed.getD (SPEEDS ty) }
  if ty = .Pedestrian then
    let pd := pedSideSpawn (r.side % 4)
    { base with
      active := true
      pathId := -1
      position := pd.1
      dir := pd.2
      progress := 0 }
  else
    let pathId := opts.pathId.getD (r.laneChoice % PATHS.length)
    { base with
      pathId := (pathId : Int)
      progress := r.progress
      position := pointOnPath pathId r.progress
      dir := tangentOnPath pathId
      active := true }

/-- `TrafficEngine.spawn(opts)`: returns the new id (or `null`, modelled
as `none` — the `PoolExhausted` signal) together with the updated pool. -/
def spawn (opts : SpawnOptions) (r : SpawnRand) (pool : List Entity) :
    Option String × List Entity :=
  match findFreeIdx pool with
  | none => (none, pool)
  | some i => (some r.newId, pool.set i (spawnedEntity opts r pool i))

/-- One pristine pool slot, as built by the constructor. -/
def initialSlot (i : ℕ) : Entity :=
  { id := "pool-" ++ toString i
    type := .Car
    position := ⟨0, 0, 0⟩
    dir := ⟨0, 0, 1⟩
    speed := 0
    active := false
    pathId := 0
    progress := 0
    scale := SCALES .Car
    color := 0 }

/-- `new TrafficEngine(maxEntities)`: the fixed-capacity pool. -/
def mkEngine (maxEntities : ℕ) : List Entity :=
  (List.range maxEntities).map initialSlot

/-- Number of active actors (`getActiveEntities().length`). -/
def activeCount (pool : List Entity) : ℕ :=
  (pool.filter fun e => e.active).length

/-! ### Signal phase controller (`TrafficLights.ts`) -/

inductive PhaseName
  | NS_LEFT
  | NS_THROUGH
  | NS_YELLOW
  | ALL_RED_1
  | EW_LEFT
  | EW_THROUGH
  | EW_YELLOW
  | ALL_RED_2
  deriving DecidableEq

structure PhaseDef where
  name : PhaseName
  durationSec : ℚ
  deriving DecidableEq

/-- `const PHASES`: the TTC-like 8-phase cycle. -/
def PHASES : List PhaseDef :=
  [ ⟨.NS_LEFT, 4⟩, ⟨.NS_THROUGH, 10⟩, ⟨.NS_YELLOW, 3⟩, ⟨.ALL_RED_1, 1⟩,
    ⟨.EW_LEFT, 4⟩, ⟨.EW_THROUGH, 10⟩, ⟨.EW_YELLOW, 3⟩, ⟨.ALL_RED_2, 1⟩ ]

/-- The mutable state of `TrafficLights`: `phaseIndex` and `phaseElapsedMs`. -/
structure TrafficLightsState where
  phaseIndex : ℕ
  phaseElapsedMs : ℚ
  deriving DecidableEq

/-- The constructor state: first phase, zero elapsed time. -/
def TrafficLightsState.start : TrafficLightsState := ⟨0, 0⟩

/-- `private get current()`. -/
def currentPhase (s : TrafficLightsState) : PhaseDef :=
  PHASES.getD s.phaseIndex ⟨.NS_LEFT, 0⟩

/-- `TrafficLights.update(deltaMs)`: accumulate, advance-and-reset when
the phase duration is reached (overshoot is truncated, not carried). -/
def lightsUpdate (s : TrafficLightsState) (deltaMs : ℚ) : TrafficLightsState :=
  let e := s.phaseElapsedMs + deltaMs
  if e ≥ (currentPhase s).durationSec * 1000 then
    ⟨(s.phaseIndex + 1) % PHASES.length, 0⟩
  else
    ⟨s.phaseIndex, e⟩

/-- Remaining time in the current phase, in seconds:
`this.current.durationSec - this.phaseElapsedMs / 1000`. -/
def remainingSec (s : TrafficLightsState) : ℚ :=
  (currentPhase s).durationSec - s.phaseElapsedMs / 1000

/-- `Math.round` on the values reachable here: round half toward `+∞`. -/
def jsRound (q : ℚ) : ℤ := ⌊q + 1/2⌋

/-- `TrafficLights.getCountdownSecRounded()`:
`Math.max(0, Math.round(remaining))`. -/
def getCountdownSecRounded (s : TrafficLightsState) : ℤ :=
  max 0 (jsRound (remainingSec s))

/-! ### Concrete actors used in scenario theorems -/

/-- A lane-bound actor placed consistently on lane `pid` at progress `p`
(the state `spawn` produces for these field values). -/
def laneActor (ty : EntityType) (pid : ℕ) (p v : ℚ) (nm : String) : Entity :=
  { id := nm
    type := ty
    position := pointOnPath pid p
    dir := tangentOnPath pid
    speed := v
    active := true
    pathId := (pid : Int)
    progress := p
    scale := SCALES ty
    color := 0 }

/-! ### Generic list lemmas -/

theorem getD_set_ne {α : Type} (l : List α) (i j : ℕ) (a d : α) (h : i ≠ j) :
    (l.set i a).getD j d = l.getD j d := by
  induction l generalizing i j with
  | nil => simp [List.set]
  | cons b t ih =>
    cases i with
    | zero =>
      cases j with
      | zero => exact absurd rfl h
      | succ j => simp [List.set]
    | succ i =>
      cases j with
      | zero => simp [List.set]
      | succ j =>
        simp only [List.set, List.getD_cons_succ]
        exact ih i j (fun hij => h (by rw [hij]))

theorem getD_set_self {α : Type} (l : List α) (i : ℕ) (a d : α) (h : i < l.length) :
    (l.set i a).getD i d = a := by
  induction l generalizing i with
  | nil => simp at h
  | cons b t ih =>
    cases i with
    | zero => simp [List.set]
    | succ i =>
      simp only [List.set, List.getD_cons_succ]
      exact ih i (by simpa using h)

theorem getD_mem_or_eq {α : Type} (l : List α) (i : ℕ) (d : α) :
    l.getD i d ∈ l ∨ l.getD i d = d := by
  induction l generalizing i with
  | nil => simp
  | cons b t ih =>
    cases i with
    | zero => left; simp
    | succ i =>
      rcases ih i with h | h
      · left
        rw [List.getD_cons_succ]
        exact List.mem_cons_of_mem b h
      · right
        rw [List.getD_cons_succ]
        exact h

theorem foldl_pres {α β : Type} (f : α → β → α) (P : α → Prop)
    (h : ∀ s x, P s → P (f s x)) : ∀ (l : List β) (s : α), P s → P (l.foldl f s) := by
  intro l
  induction l with
  | nil => intro s hs; exact hs
  | cons x t ih => intro s hs; exact ih (f s x) (h s x hs)

theorem mem_insertKeyed (key : ℕ → ℚ) (j x : ℕ) :
    ∀ l : List ℕ, x ∈ insertKeyed key j l ↔ x = j ∨ x ∈ l := by
  intro l
  induction l with
  | nil => simp [insertKeyed]
  | cons k t ih =>
    by_cases h : key j ≤ key k
    · simp [insertKeyed, h]
    · simp [insertKeyed, h, ih]
      tauto

theorem mem_sortKeyed (key : ℕ → ℚ) (x : ℕ) :
    ∀ l : List ℕ, x ∈ sortKeyed key l ↔ x ∈ l := by
  intro l
  induction l with
  | nil => simp [sortKeyed]
  | cons k t ih =>
    simp only [sortKeyed, List.foldr_cons]
    rw [mem_insertKeyed]
    simp only [sortKeyed] at ih
    simp [ih]

/-! ### Structural lemmas about the engine update -/

theorem stepVehicle_eq (dt : ℚ) (lights : Option Lights) (lane : ℕ) (order : List ℕ)
    (pool : List Entity) (i : ℕ) :
    stepVehicle dt lights lane order pool i =
      pool.set i
        { pool.getD i dummyEntity with
          progress := stepNext dt lights lane order pool i
          position := pointOnPath lane (stepNext dt lights lane order pool i)
          dir := tangentOnPath lane } := rfl

theorem updateLane_eq (dt : ℚ) (lights : Option Lights) (lane : ℕ) (pool : List Entity) :
    updateLane dt lights lane pool =
      (laneOrder pool lane).foldl
        (fun p i => stepVehicle dt lights lane (laneOrder pool lane) p i) pool := rfl

/-- Active lane-bound slots of `pool` all sit on lane `c`. -/
def allOnLane (pool : List Entity) (c : ℕ) : Prop :=
  ∀ e ∈ pool, e.active = true → e.pathId = (c : Int)

/-- No pedestrian in the pool. -/
def nonPed (pool : List Entity) : Prop :=
  ∀ e ∈ pool, e.type ≠ EntityType.Pedestrian

theorem allOnLane_stepVehicle {pool : List Entity} {c : ℕ} (h : allOnLane pool c)
    (dt : ℚ) (lights : Option Lights) (lane : ℕ) (order : List ℕ) (i : ℕ) :
    allOnLane (stepVehicle dt lights lane order pool i) c := by
  intro e' he'
  rw [stepVehicle_eq] at he'
  rcases List.mem_or_eq_of_mem_set he' with hmem | heq
  · exact h e' hmem
  · subst heq
    intro hact
    simp only at hact ⊢
    rcases getD_mem_or_eq pool i dummyEntity with hm | hd
    · exact h _ hm hact
    · rw [hd] at hact; simp [dummyEntity] at hact

theorem nonPed_stepVehicle {pool : List Entity} (h : nonPed pool)
    (dt : ℚ) (lights : Option Lights) (lane : ℕ) (order : List ℕ) (i : ℕ) :
    nonPed (stepVehicle dt lights lane order pool i) := by
  intro e' he'
  rw [stepVehicle_eq] at he'
  rcases List.mem_or_eq_of_mem_set he' with hmem | heq
  · exact h e' hmem
  · subst heq
    simp only
    rcases getD_mem_or_eq pool i dummyEntity with hm | hd
    · exact h _ hm
    · rw [hd]; simp [dummyEntity]

theorem allOnLane_updateLane {pool : List Entity} {c : ℕ} (h : allOnLane pool c)
    (dt : ℚ) (lights : Option Lights) (lane : ℕ) :
    allOnLane (updateLane dt lights lane pool) c := by
  rw [updateLane_eq]
  exact foldl_pres _ (fun p => allOnLane p c)
    (fun s x hs => allOnLane_stepVehicle hs dt lights lane (laneOrder pool lane) x)
    (laneOrder pool lane) pool h

theorem nonPed_updateLane {pool : List Entity} (h : nonPed pool)
    (dt : ℚ) (lights : Option Lights) (lane : ℕ) :
    nonPed (updateLane dt lights lane pool) := by
  rw [updateLane_eq]
  exact foldl_pres _ nonPed
    (fun s x hs => nonPed_stepVehicle hs dt lights lane (laneOrder pool lane) x)
    (laneOrder pool lane) pool h

theorem laneIndices_nil {pool : List Entity} {lane : ℕ}
    (h : ∀ e ∈ pool, e.active = true → e.pathId ≠ (lane : Int)) :
    laneIndices pool lane = [] := by
  apply List.filter_eq_nil_iff.mpr
  intro i hi
  intro habs
  rcases Bool.and_eq_true_iff.mp habs with ⟨h1, _⟩
  rcases Bool.and_eq_true_iff.mp h1 with ⟨hact, hpid⟩
  rcases getD_mem_or_eq pool i dummyEntity with hm | hd
  · exact h _ hm hact (by simpa using hpid)
  · rw [hd] at hact; simp [dummyEntity] at hact

theorem updateLane_skip {pool : List Entity} {c k : ℕ} (h : allOnLane pool c)
    (hk : k ≠ c) (dt : ℚ) (lights : Option Lights) :
    updateLane dt lights k pool = pool := by
  rw [updateLane_eq]
  have hnil : laneIndices pool k = [] := by
    apply laneIndices_nil
    intro e he hact
    rw [h e he hact]
    intro habs
    exact hk (by exact_mod_cast habs.symm)
  rw [show laneOrder pool k = [] by rw [laneOrder, hnil]; rfl]
  rfl

theorem foldl_skip_all {c : ℕ} (dt : ℚ) (lights : Option Lights) :
    ∀ (L : List ℕ) (pool : List Entity), (∀ k ∈ L, k ≠ c) → allOnLane pool c →
      L.foldl (fun p k => updateLane dt lights k p) pool = pool := by
  intro L
  induction L with
  | nil => intro pool _ _; rfl
  | cons k t ih =>
    intro pool hL h
    have hk : k ≠ c := hL k (by simp)
    simp only [List.foldl_cons]
    rw [updateLane_skip h hk dt lights]
    exact ih pool (fun k' hk' => hL k' (by simp [hk'])) h

theorem foldl_single_hit {c : ℕ} (dt : ℚ) (lights : Option Lights) :
    ∀ (L : List ℕ) (pool : List Entity), allOnLane pool c → L.count c ≤ 1 →
      L.foldl (fun p k => updateLane dt lights k p) pool =
        if c ∈ L then updateLane dt lights c pool else pool := by
  intro L
  induction L with
  | nil => intro pool _ _; simp
  | cons k t ih =>
    intro pool h hcount
    by_cases hk : k = c
    · subst hk
      have hct : t.count k = 0 := by
        have := List.count_cons_self k t
        omega
      have hnotmem : ∀ k' ∈ t, k' ≠ k := by
        intro k' hk' habs
        subst habs
        exact absurd (List.count_eq_zero.mp hct) (by simp [hk'])
      simp only [List.foldl_cons, List.mem_cons, true_or, if_pos]
      exact foldl_skip_all dt lights t (updateLane dt lights k pool) hnotmem
        (allOnLane_updateLane h dt lights k)
    · have hkc : k ≠ c := hk
      simp only [List.foldl_cons]
      rw [updateLane_skip h hkc dt lights]
      rw [ih pool h (by simpa [List.count_cons, Ne.symm hkc] using hcount)]
      have hmemiff : c ∈ k :: t ↔ c ∈ t := by
        constructor
        · intro hm
          rcases List.mem_cons.mp hm with hck | hct
          · exact absurd hck.symm hkc
          · exact hct
        · intro hm
          exact List.mem_cons_of_mem k hm
      by_cases hmem : c ∈ t
      · rw [if_pos hmem, if_pos (hmemiff.mpr hmem)]
      · rw [if_neg hmem, if_neg (fun hm => hmem (hmemiff.mp hm))]

theorem pedStep_nonPed {e : Entity} (h : e.type ≠ EntityType.Pedestrian) (dt : ℚ) :
    pedStep dt e = e := by
  rw [pedStep, if_neg]
  intro habs
  exact h habs.2

theorem map_pedStep_id {pool : List Entity} (h : nonPed pool) (dt : ℚ) :
    pool.map (pedStep dt) = pool := by
  induction pool with
  | nil => rfl
  | cons e t ih =>
    simp only [List.map_cons]
    rw [pedStep_nonPed (h e (by simp)) dt, ih (fun e' he' => h e' (by simp [he']))]

/-- On a pool whose active actors all sit on lane `c < 8` and which
contains no pedestrian, `update` is exactly the lane-`c` pass. -/
theorem update_allOnLane {pool : List Entity} {c : ℕ} (h : allOnLane pool c)
    (hc : c < 8) (hnp : nonPed pool) (dt : ℚ) (lights : Option Lights) :
    update dt lights pool = updateLane dt lights c pool := by
  rw [update]
  have hlen : PATHS.length = 8 := rfl
  rw [hlen]
  rw [foldl_single_hit dt lights (List.range 8) pool h
    (List.nodup_iff_count_le_one.mp (List.nodup_range 8) c)]
  rw [if_pos (List.mem_range.mpr hc)]
  exact map_pedStep_id (nonPed_updateLane hnp dt lights c) dt

/-! ### The gate, axis helpers and bounds -/

/-- The right-of-way bit `update` consults for a lane:
`isNS ? (lights?.NS ?? true) : (lights?.EW ?? true)`. -/
def axisGreen (lane : ℕ) (lights : Option Lights) : Bool :=
  if lane < 4 then greenNS lights else greenEW lights

/-- World coordinate along the travel axis of `lane` (z for NS/SN lanes,
x for WE/EW lanes) — the quantity the stop-line gate tests. -/
def axisPos (lane : ℕ) (e : Entity) : ℚ :=
  if lane < 4 then e.position.z else e.position.x

/-- Heading component along the travel axis of `lane`. -/
def axisDir (lane : ℕ) (e : Entity) : ℚ :=
  if lane < 4 then e.dir.z else e.dir.x

theorem SPEEDS_pos (ty : EntityType) : 0 < SPEEDS ty := by
  cases ty <;> norm_num [SPEEDS]

theorem effSpeed_nonneg {e : Entity} (h : 0 ≤ e.speed) : 0 ≤ effSpeed e := by
  rw [effSpeed]
  split
  · exact le_of_lt (SPEEDS_pos e.type)
  · exact h

theorem candidateProgress_ge {dt : ℚ} {e : Entity} (hdt : 0 ≤ dt) (hs : 0 ≤ e.speed) :
    e.progress ≤ candidateProgress dt e := by
  rw [candidateProgress]
  have hq : 0 ≤ effSpeed e * dt / (ROAD_EXTENT * 2) := by
    apply div_nonneg (mul_nonneg (effSpeed_nonneg hs) hdt)
    norm_num [ROAD_EXTENT]
  linarith

theorem gatedProgress_of_green {lane : ℕ} {lights : Option Lights}
    (h : axisGreen lane lights = true) (dt : ℚ) (ent : Entity) :
    gatedProgress dt lights lane ent = candidateProgress dt ent := by
  simp only [axisGreen] at h
  simp [gatedProgress, h]

theorem gatedProgress_hold {lane : ℕ} {lights : Option Lights} {ent : Entity} {dt : ℚ}
    (hg : axisGreen lane lights = false)
    (h1 : |axisPos lane ent| > STOP_LINE)
    (h2 : |axisPos lane ent + axisDir lane ent * effSpeed ent * dt| ≤ STOP_LINE) :
    gatedProgress dt lights lane ent = ent.progress := by
  by_cases h4 : lane < 4
  · simp only [axisGreen, axisPos, axisDir, if_pos h4] at hg h1 h2
    simp [gatedProgress, h4, hg, h1, h2]
  · simp only [axisGreen, axisPos, axisDir, if_neg h4] at hg h1 h2
    simp [gatedProgress, h4, hg, h1, h2]

theorem gatedProgress_bounds {lane : ℕ} {lights : Option Lights} {ent : Entity} {dt : ℚ}
    (hdt : 0 ≤ dt) (hs : 0 ≤ ent.speed) :
    ent.progress ≤ gatedProgress dt lights lane ent ∧
      gatedProgress dt lights lane ent ≤ candidateProgress dt ent := by
  have hc := candidateProgress_ge (e := ent) hdt hs
  simp only [gatedProgress]
  split_ifs
  all_goals constructor
  all_goals first
    | exact hc
    | exact le_refl _

/-! ### Update of a one-actor pool -/

theorem laneOrder_singleton {c : ℕ} {ent : Entity} (ha : ent.active = true)
    (ht : ent.type ≠ EntityType.Pedestrian) (hp : ent.pathId = (c : Int)) :
    laneOrder [ent] c = [0] := by
  have hr1 : List.range 1 = [0] := rfl
  have hgd : ([ent] : List Entity).getD 0 dummyEntity = ent := rfl
  have hidx : laneIndices [ent] c = [0] := by
    simp only [laneIndices, List.length_singleton, hr1, List.filter_cons,
      List.filter_nil, hgd, ha, hp]
    simp [beq_iff_eq, ht]
  rw [laneOrder, hidx]
  rfl

theorem spacedProgress_singleton (ent : Entity) (q : ℚ) :
    spacedProgress [ent] [0] ent q = q := by
  have hfind :
      ([0] : List ℕ).find?
        (fun j => decide ((([ent] : List Entity).getD j dummyEntity).progress > ent.progress)) =
        none := by
    rw [List.find?_cons_of_neg _ (by simp), List.find?_nil]
  simp [spacedProgress, hfind]

theorem update_singleton {c : ℕ} (hc : c < 8) (ent : Entity) (ha : ent.active = true)
    (ht : ent.type ≠ EntityType.Pedestrian) (hp : ent.pathId = (c : Int))
    (dt : ℚ) (lights : Option Lights) :
    update dt lights [ent] =
      [{ ent with
          progress := wrapProgress (gatedProgress dt lights c ent)
          position := pointOnPath c (wrapProgress (gatedProgress dt lights c ent))
          dir := tangentOnPath c }] := by
  have hall : allOnLane [ent] c := by
    intro e he _
    rcases List.mem_singleton.mp he with rfl
    exact hp
  have hnp : nonPed [ent] := by
    intro e he
    rcases List.mem_singleton.mp he with rfl
    exact ht
  rw [update_allOnLane hall hc hnp dt lights, updateLane_eq,
    laneOrder_singleton ha ht hp]
  simp only [List.foldl_cons, List.foldl_nil]
  rw [stepVehicle_eq]
  have hgd : ([ent] : List Entity).getD 0 dummyEntity = ent := rfl
  rw [show stepNext dt lights c [0] [ent] 0 =
      wrapProgress (gatedProgress dt lights c ent) by
    rw [stepNext, hgd, spacedProgress_singleton]]
  rw [hgd]
  rfl



/-! ### Evaluation helpers for the per-actor pipeline -/

theorem wrapProgress_of_le {q : ℚ} (h : q ≤ 1) : wrapProgress q = q := by
  rw [wrapProgress, if_neg (not_lt.mpr h)]

theorem wrapProgress_of_gt {q : ℚ} (h : 1 < q) : wrapProgress q = q - 1 := by
  rw [wrapProgress, if_pos h]

theorem spacedProgress_of_none {pool : List Entity} {order : List ℕ} {ent : Entity}
    (q : ℚ)
    (h : order.find? (fun j => decide ((pool.getD j dummyEntity).progress > ent.progress)) =
      none) :
    spacedProgress pool order ent q = q := by
  unfold spacedProgress
  rw [h]

theorem spacedProgress_of_some {pool : List Entity} {order : List ℕ} {ent : Entity} {j : ℕ}
    (q : ℚ)
    (h : order.find? (fun j => decide ((pool.getD j dummyEntity).progress > ent.progress)) =
      some j) :
    spacedProgress pool order ent q =
      if (pool.getD j dummyEntity).progress - q < minSpacing then
        max ent.progress ((pool.getD j dummyEntity).progress - minSpacing)
      else q := by
  unfold spacedProgress
  rw [h]

theorem gatedProgress_pass {lane : ℕ} {lights : Option Lights} {ent : Entity} {dt : ℚ}
    (hg : axisGreen lane lights = false)
    (h : ¬(|axisPos lane ent| > STOP_LINE ∧
      |axisPos lane ent + axisDir lane ent * effSpeed ent * dt| ≤ STOP_LINE)) :
    gatedProgress dt lights lane ent = candidateProgress dt ent := by
  by_cases h4 : lane < 4
  · simp only [axisGreen, axisPos, axisDir, if_pos h4] at hg h
    simp [gatedProgress, h4, hg, h]
  · simp only [axisGreen, axisPos, axisDir, if_neg h4] at hg h
    simp [gatedProgress, h4, hg, h]

theorem candidateProgress_eval {v : ℚ} (hv : v ≠ 0) (ty : EntityType) (pid : ℕ)
    (p dt : ℚ) (nm : String) :
    candidateProgress dt (laneActor ty pid p v nm) = p + v * dt / 40 := by
  norm_num [candidateProgress, effSpeed, laneActor, hv, ROAD_EXTENT]

/-! ### Update of a two-actor pool -/

theorem laneOrder_pair {c : ℕ} {e0 e1 : Entity}
    (ha0 : e0.active = true) (ha1 : e1.active = true)
    (ht0 : e0.type ≠ EntityType.Pedestrian) (ht1 : e1.type ≠ EntityType.Pedestrian)
    (hp0 : e0.pathId = (c : Int)) (hp1 : e1.pathId = (c : Int))
    (hle : e0.progress ≤ e1.progress) :
    laneOrder [e0, e1] c = [0, 1] := by
  have hlen2 : ([e0, e1] : List Entity).length = 2 := rfl
  have hr2 : List.range 2 = [0, 1] := rfl
  have hgd0 : ([e0, e1] : List Entity).getD 0 dummyEntity = e0 := rfl
  have hgd1 : ([e0, e1] : List Entity).getD 1 dummyEntity = e1 := rfl
  have hidx : laneIndices [e0, e1] c = [0, 1] := by
    simp only [laneIndices, hlen2, hr2, List.filter_cons, List.filter_nil, hgd0, hgd1,
      ha0, ha1, hp0, hp1]
    simp [beq_iff_eq, ht0, ht1]
  rw [laneOrder, hidx]
  simp only [sortKeyed, List.foldr_cons, List.foldr_nil, insertKeyed, hgd0, hgd1]
  rw [if_pos hle]

theorem update_pair {c : ℕ} (hc : c < 8) (e0 e1 : Entity) (dt : ℚ)
    (lights : Option Lights)
    (ha0 : e0.active = true) (ha1 : e1.active = true)
    (ht0 : e0.type ≠ EntityType.Pedestrian) (ht1 : e1.type ≠ EntityType.Pedestrian)
    (hp0 : e0.pathId = (c : Int)) (hp1 : e1.pathId = (c : Int))
    (hle : e0.progress ≤ e1.progress) :
    update dt lights [e0, e1] =
      stepVehicle dt lights c [0, 1] (stepVehicle dt lights c [0, 1] [e0, e1] 0) 1 := by
  have hall : allOnLane [e0, e1] c := by
    intro e he _
    rcases List.mem_cons.mp he with rfl | he'
    · exact hp0
    · rcases List.mem_singleton.mp he' with rfl
      exact hp1
  have hnp : nonPed [e0, e1] := by
    intro e he
    rcases List.mem_cons.mp he with rfl | he'
    · exact ht0
    · rcases List.mem_singleton.mp he' with rfl
      exact ht1
  have hpedfinal :
      nonPed (stepVehicle dt lights c [0, 1] (stepVehicle dt lights c [0, 1] [e0, e1] 0) 1) :=
    nonPed_stepVehicle (nonPed_stepVehicle hnp dt lights c [0, 1] 0) dt lights c [0, 1] 1
  rw [update_allOnLane hall hc hnp dt lights, updateLane_eq,
    laneOrder_pair ha0 ha1 ht0 ht1 hp0 hp1 hle]
  rfl

/-! ### Claim theorems -/

/-- C10: calling `update` with the signal snapshot omitted produces
exactly the same post-state as calling it with `{NS: true, EW: true}`:
a missing snapshot defaults every axis to green (the `?? true` in the
source), so no stop-line gating can fire.  (A snapshot with one axis
field missing is not representable in the declared argument type.) -/
theorem update_none_eq_all_green (dt : ℚ) (pool : List Entity) :
    update dt none pool = update dt (some ⟨true, true⟩) pool := rfl

/-- The per-phase durations, in milliseconds, in cycle order. -/
def cycleDeltas : List ℚ := PHASES.map fun p => p.durationSec * 1000

/-- C8: the configured phase durations sum to the full 36-second cycle,
and advancing `update` by exactly the cycle length through repeated calls
(one call per phase duration) brings the controller back to its initial
phase with zero elapsed time in that phase. -/
theorem lights_cycle_closure :
    (PHASES.map fun p => p.durationSec).sum = 36 ∧
    cycleDeltas.sum = 36 * 1000 ∧
    cycleDeltas.foldl lightsUpdate TrafficLightsState.start = TrafficLightsState.start := by
  refine ⟨?_, ?_, ?_⟩
  · norm_num [PHASES]
  · norm_num [cycleDeltas, PHASES]
  · norm_num [cycleDeltas, PHASES, List.foldl_cons, List.foldl_nil, lightsUpdate,
      currentPhase, TrafficLightsState.start, List.getD_cons_zero, List.getD_cons_succ]

theorem axisGreen_all_green (lane : ℕ) : axisGreen lane (some ⟨true, true⟩) = true := by
  by_cases h : lane < 4 <;> simp [axisGreen, greenNS, greenEW, h]

theorem singleton_green_update {c : ℕ} (hc : c < 8) {ty : EntityType}
    (hty : ty ≠ EntityType.Pedestrian) {v : ℚ} (hv : v ≠ 0) (p dt : ℚ) (nm : String) :
    update dt (some ⟨true, true⟩) [laneActor ty c p v nm] =
      [{ laneActor ty c p v nm with
          progress := wrapProgress (p + v * dt / 40)
          position := pointOnPath c (wrapProgress (p + v * dt / 40))
          dir := tangentOnPath c }] := by
  rw [update_singleton hc (laneActor ty c p v nm) rfl hty rfl dt (some ⟨true, true⟩)]
  rw [gatedProgress_of_green (axisGreen_all_green c) dt (laneActor ty c p v nm)]
  rw [candidateProgress_eval hv ty c p dt nm]

/-- C3 counterexample: with dt = 20 the candidate progress is
0 + 8·20/40 = 4; the single `next -= 1` wrap leaves the committed
progress at 3, outside [0, 1], while the actor stays active. -/
theorem progress_escapes_bounds :
    ((update 20 (some ⟨true, true⟩) [laneActor .Car 0 0 8 "carW"]).getD 0
      dummyEntity).progress = 3 ∧
    ¬ ((update 20 (some ⟨true, true⟩) [laneActor .Car 0 0 8 "carW"]).getD 0
      dummyEntity).progress ≤ 1 ∧
    ((update 20 (some ⟨true, true⟩) [laneActor .Car 0 0 8 "carW"]).getD 0
      dummyEntity).active = true := by
  rw [singleton_green_update (by norm_num) (by decide) (by norm_num) 0 20 "carW"]
  have hwrap : wrapProgress (0 + 8 * 20 / 40) = 3 := by
    rw [show (0 : ℚ) + 8 * 20 / 40 = 4 by norm_num, wrapProgress_of_gt (by norm_num)]
    norm_num
  refine ⟨?_, ?_, rfl⟩
  · show wrapProgress (0 + 8 * 20 / 40) = 3
    exact hwrap
  · show ¬ wrapProgress (0 + 8 * 20 / 40) ≤ 1
    rw [hwrap]
    norm_num

theorem tangentOnPath_zero : tangentOnPath 0 = ⟨0, 0, 1⟩ := by
  have h1600 : ratSqrt 1600 = 40 := by
    have hn : Nat.sqrt ((1600 : ℚ)).num.toNat = 40 := by
      have h0 : ((1600 : ℚ)).num.toNat = 1600 := by
        norm_num
        rfl
      rw [h0, show (1600 : ℕ) = 40 * 40 by norm_num]
      exact Nat.sqrt_eq 40
    have hd : Nat.sqrt ((1600 : ℚ)).den = 1 := by norm_num
    rw [ratSqrt, hn, hd]
    norm_num
  have harg :
      ((PATHS.getD 0 (⟨0,0,0⟩, ⟨0,0,0⟩)).2.x - (PATHS.getD 0 (⟨0,0,0⟩, ⟨0,0,0⟩)).1.x) *
        ((PATHS.getD 0 (⟨0,0,0⟩, ⟨0,0,0⟩)).2.x - (PATHS.getD 0 (⟨0,0,0⟩, ⟨0,0,0⟩)).1.x) +
      ((PATHS.getD 0 (⟨0,0,0⟩, ⟨0,0,0⟩)).2.z - (PATHS.getD 0 (⟨0,0,0⟩, ⟨0,0,0⟩)).1.z) *
        ((PATHS.getD 0 (⟨0,0,0⟩, ⟨0,0,0⟩)).2.z - (PATHS.getD 0 (⟨0,0,0⟩, ⟨0,0,0⟩)).1.z) = 1600 := by
    norm_num [PATHS, LANE_OFFSETS, ROAD_EXTENT]
  rw [tangentOnPath]
  rw [harg, h1600]
  norm_num [PATHS, LANE_OFFSETS, ROAD_EXTENT]

theorem pointOnPath_zero (p : ℚ) : pointOnPath 0 p = ⟨-3/2, 0, -20 + 40 * p⟩ := by
  rw [pointOnPath]
  norm_num [PATHS, LANE_OFFSETS, ROAD_EXTENT]

/-- C2 counterexample: with the NS signal red and a car strictly before
the intersection footprint (z = −5, |z| > STOP_LINE = 4), a single
`update(dt = 2)` call moves it to z = 11 — past the entire footprint —
because the gate only clamps when the candidate position lands *inside*
the footprint (`|nextZ| ≤ STOP_LINE`); here nextZ = 11 jumps over it, so
the claim's "never advances past the boundary for any dt" is false. -/
theorem stop_line_tunneled :
    greenNS (some ⟨false, true⟩) = false ∧
    (laneActor .Car 0 (3/8) 8 "carZ").position.z = -5 ∧
    STOP_LINE = 4 ∧
    ((update 2 (some ⟨false, true⟩) [laneActor .Car 0 (3/8) 8 "carZ"]).getD 0
      dummyEntity).position.z = 11 ∧
    ((update 2 (some ⟨false, true⟩) [laneActor .Car 0 (3/8) 8 "carZ"]).getD 0
      dummyEntity).active = true := by
  have hzpre : (laneActor .Car 0 (3/8) 8 "carZ").position.z = -5 := by
    show (pointOnPath 0 (3/8)).z
      = -5
    rw [pointOnPath_zero]
    norm_num
  have hdir : (laneActor .Car 0 (3/8) 8 "carZ").dir.z = 1 := by
    show (tangentOnPath 0).z = 1
    rw [tangentOnPath_zero]
  have heff : effSpeed (laneActor .Car 0 (3/8) 8 "carZ") = 8 := by
    norm_num [effSpeed, laneActor]
  have hupd := update_singleton (c := 0) (by norm_num) (laneActor .Car 0 (3/8) 8 "carZ")
    rfl (by decide) rfl 2 (some ⟨false, true⟩)
  have hgate : gatedProgress 2 (some ⟨false, true⟩) 0 (laneActor .Car 0 (3/8) 8 "carZ") =
      candidateProgress 2 (laneActor .Car 0 (3/8) 8 "carZ") := by
    apply gatedProgress_pass (by rfl)
    rw [not_and]
    intro h1
    rw [show axisPos 0 (laneActor .Car 0 (3/8) 8 "carZ") = -5 from hzpre,
      show axisDir 0 (laneActor .Car 0 (3/8) 8 "carZ") = 1 from hdir, heff]
    norm_num [STOP_LINE, INTERSECTION_SIZE]
  have hcand : candidateProgress 2 (laneActor .Car 0 (3/8) 8 "carZ") = 31/40 :=
    by rw [candidateProgress_eval (by norm_num) _ _ _ _ _]; norm_num
  rw [hupd, hgate, hcand]
  have hwrap : wrapProgress (31/40 : ℚ) = 31/40 := wrapProgress_of_le (by norm_num)
  rw [hwrap]
  refine ⟨rfl, hzpre, by norm_num [STOP_LINE, INTERSECTION_SIZE], ?_, rfl⟩
  show (pointOnPath 0 (31/40)).z = 11
  rw [pointOnPath_zero]
  norm_num

/-- C5 counterexample: a lane-bound Bicycle whose candidate progress
1.075 exceeds 1 does not despawn — it stays active and wraps to
candidate − 1 = 0.075 (not to 0), exactly like a Car or Truck: the
path-completion code `if (next > 1) next -= 1` has no kind dispatch. -/
theorem bicycle_wraps_not_despawns :
    (laneActor .Bicycle 0 (9/10) 7 "bike").type = EntityType.Bicycle ∧
    candidateProgress 1 (laneActor .Bicycle 0 (9/10) 7 "bike") = 43/40 ∧
    ((43 : ℚ)/40) > 1 ∧
    ((update 1 (some ⟨true, true⟩) [laneActor .Bicycle 0 (9/10) 7 "bike"]).getD 0
      dummyEntity).active = true ∧
    ((update 1 (some ⟨true, true⟩) [laneActor .Bicycle 0 (9/10) 7 "bike"]).getD 0
      dummyEntity).progress = 3/40 ∧
    ((3 : ℚ)/40) ≠ 0 := by
  rw [singleton_green_update (by norm_num) (by decide) (by norm_num) (9/10) 1 "bike"]
  refine ⟨rfl, ?_, by norm_num, rfl, ?_, by norm_num⟩
  · rw [candidateProgress_eval (by norm_num) _ _ _ _ _]
    norm_num
  · show wrapProgress (9/10 + 7 * 1 / 40) = 3/40
    rw [show (9 : ℚ)/10 + 7 * 1 / 40 = 43/40 by norm_num,
      wrapProgress_of_gt (by norm_num)]
    norm_num

/-- C6 counterexample: a single actor alone on its lane with a green
signal does not always gain exactly speed·dt/laneLength: at progress 0.9
with speed 8 and dt = 1 the candidate 0.9 + 0.2 = 1.1 exceeds 1 and
wraps, so the committed progress is 0.1, not 1.1. -/
theorem single_actor_advance_wraps :
    ((update 1 (some ⟨true, true⟩) [laneActor .Car 0 (9/10) 8 "carV"]).getD 0
      dummyEntity).progress = 1/10 ∧
    (laneActor .Car 0 (9/10) 8 "carV").progress +
      (laneActor .Car 0 (9/10) 8 "carV").speed * 1 / (ROAD_EXTENT * 2) = 11/10 ∧
    ((1 : ℚ)/10) ≠ 11/10 := by
  rw [singleton_green_update (by norm_num) (by decide) (by norm_num) (9/10) 1 "carV"]
  refine ⟨?_, ?_, by norm_num⟩
  · show wrapProgress (9/10 + 8 * 1 / 40) = 1/10
    rw [show (9 : ℚ)/10 + 8 * 1 / 40 = 11/10 by norm_num,
      wrapProgress_of_gt (by norm_num)]
    norm_num
  · norm_num [laneActor, ROAD_EXTENT]

/-- C7 counterexample: in the reachable state 600 ms into the first
phase (duration 4 s) the remaining time is 3.4 s; the accessor returns
`Math.max(0, Math.round(3.4)) = 3`, while the ceiling of the remaining
seconds is 4 — the accessor rounds to nearest, it does not take the
ceiling. -/
theorem countdown_rounds_not_ceils :
    getCountdownSecRounded (lightsUpdate TrafficLightsState.start 600) = 3 ∧
    remainingSec (lightsUpdate TrafficLightsState.start 600) = 17/5 ∧
    (⌈(17 : ℚ)/5⌉ : ℤ) = 4 ∧
    (3 : ℤ) ≠ 4 := by
  have hupd : lightsUpdate TrafficLightsState.start 600 = ⟨0, 600⟩ := by
    norm_num [lightsUpdate, TrafficLightsState.start, currentPhase, PHASES]
  have hrem : remainingSec (⟨0, 600⟩ : TrafficLightsState) = 17/5 := by
    norm_num [remainingSec, currentPhase, PHASES]
  refine ⟨?_, by rw [hupd]; exact hrem, ?_, by norm_num⟩
  · rw [getCountdownSecRounded, hupd, hrem]
    have hjr : jsRound (17/5) = 3 := by
      rw [jsRound, show (17 : ℚ)/5 + 1/2 = 39/10 by norm_num]
      rw [Int.floor_eq_iff]
      norm_num
    rw [hjr]
    norm_num
  · rw [Int.ceil_eq_iff]
    norm_num

/-- C9 counterexample: two same-lane actors with exactly equal progress
are processed in pool-slot order ([0, 1]), not in id order: slot 0
carries the lexicographically larger id "b" and is still processed
first, so the tie is *not* broken by a stable order on the ids. -/
theorem tie_break_is_slot_order_not_id :
    laneOrder [laneActor .Car 0 (1/2) 8 "b", laneActor .Car 0 (1/2) 8 "a"] 0 = [0, 1] ∧
    (laneActor .Car 0 (1/2) 8 "b").id = "b" ∧
    (laneActor .Car 0 (1/2) 8 "a").id = "a" ∧
    (laneActor .Car 0 (1/2) 8 "b").progress = (laneActor .Car 0 (1/2) 8 "a").progress ∧
    ("a" < "b") := by
  refine ⟨?_, rfl, rfl, rfl, ?_⟩
  · exact laneOrder_pair rfl rfl (by decide) (by decide) rfl rfl (le_refl _)
  · rw [String.lt_iff_toList_lt]
    decide

/-- C1 counterexample: a two-car lane-0 pre-state satisfying the spacing
invariant (progresses 0 and 0.98, gap 0.98 ≥ minSpacing) violates it
after one `update(0.25, all-green)` call: the leading car wraps
(candidate 1.03 → 0.03) while the trailing car advances to 0.05, so the
two active same-lane cars ordered by progress end up 0.02 < 0.06 apart. -/
theorem spacing_violated_after_update :
    (laneActor .Car 0 (49/50) 8 "carB").progress -
      (laneActor .Car 0 0 8 "carA").progress ≥ minSpacing ∧
    ((update (1/4) (some ⟨true, true⟩)
      [laneActor .Car 0 0 8 "carA", laneActor .Car 0 (49/50) 8 "carB"]).getD 0
        dummyEntity).progress = 1/20 ∧
    ((update (1/4) (some ⟨true, true⟩)
      [laneActor .Car 0 0 8 "carA", laneActor .Car 0 (49/50) 8 "carB"]).getD 1
        dummyEntity).progress = 3/100 ∧
    ((update (1/4) (some ⟨true, true⟩)
      [laneActor .Car 0 0 8 "carA", laneActor .Car 0 (49/50) 8 "carB"]).getD 0
        dummyEntity).active = true ∧
    ((update (1/4) (some ⟨true, true⟩)
      [laneActor .Car 0 0 8 "carA", laneActor .Car 0 (49/50) 8 "carB"]).getD 1
        dummyEntity).active = true ∧
    ((update (1/4) (some ⟨true, true⟩)
      [laneActor .Car 0 0 8 "carA", laneActor .Car 0 (49/50) 8 "carB"]).getD 0
        dummyEntity).pathId = 0 ∧
    ((update (1/4) (some ⟨true, true⟩)
      [laneActor .Car 0 0 8 "carA", laneActor .Car 0 (49/50) 8 "carB"]).getD 1
        dummyEntity).pathId = 0 ∧
    ((1 : ℚ)/20) - 3/100 < minSpacing := by
  have hle : (laneActor .Car 0 0 8 "carA").progress ≤
      (laneActor .Car 0 (49/50) 8 "carB").progress := by
    norm_num [laneActor]
  have hpair := update_pair (c := 0) (by norm_num) (laneActor .Car 0 0 8 "carA")
    (laneActor .Car 0 (49/50) 8 "carB") (1/4) (some ⟨true, true⟩) rfl rfl
    (by decide) (by decide) rfl rfl hle
  -- step 0: the trailing car A advances to 1/20
  have hgdA : (([laneActor .Car 0 0 8 "carA", laneActor .Car 0 (49/50) 8 "carB"] :
      List Entity)).getD 0 dummyEntity = laneActor .Car 0 0 8 "carA" := rfl
  have hcandA : candidateProgress (1/4) (laneActor .Car 0 0 8 "carA") = 1/20 := by
    rw [candidateProgress_eval (by norm_num) _ _ _ _ _]
    norm_num
  have hfindA :
      ([0, 1] : List ℕ).find? (fun j =>
        decide ((([laneActor .Car 0 0 8 "carA", laneActor .Car 0 (49/50) 8 "carB"] :
          List Entity).getD j dummyEntity).progress >
          (laneActor .Car 0 0 8 "carA").progress)) = some 1 := by
    rw [List.find?_cons_of_neg _ (by norm_num [laneActor]),
      List.find?_cons_of_pos _ (by norm_num [laneActor])]
  have hnextA : stepNext (1/4) (some ⟨true, true⟩) 0 [0, 1]
      [laneActor .Car 0 0 8 "carA", laneActor .Car 0 (49/50) 8 "carB"] 0 = 1/20 := by
    simp only [stepNext, hgdA]
    rw [gatedProgress_of_green (axisGreen_all_green 0) _ _, hcandA,
      spacedProgress_of_some _ hfindA]
    rw [if_neg (by norm_num [laneActor, minSpacing])]
    exact wrapProgress_of_le (by norm_num)
  have hstep0 : stepVehicle (1/4) (some ⟨true, true⟩) 0 [0, 1]
      [laneActor .Car 0 0 8 "carA", laneActor .Car 0 (49/50) 8 "carB"] 0 =
      [{ laneActor .Car 0 0 8 "carA" with
          progress := 1/20
          position := pointOnPath 0 (1/20)
          dir := tangentOnPath 0 },
        laneActor .Car 0 (49/50) 8 "carB"] := by
    rw [stepVehicle_eq, hnextA, hgdA]
    rfl
  -- step 1: the leading car B wraps to 3/100
  have hgdB : (([{ laneActor .Car 0 0 8 "carA" with
      progress := 1/20
      position := pointOnPath 0 (1/20)
      dir := tangentOnPath 0 },
      laneActor .Car 0 (49/50) 8 "carB"] : List Entity)).getD 1 dummyEntity =
      laneActor .Car 0 (49/50) 8 "carB" := rfl
  have hcandB : candidateProgress (1/4) (laneActor .Car 0 (49/50) 8 "carB") = 103/100 := by
    rw [candidateProgress_eval (by norm_num) _ _ _ _ _]
    norm_num
  have hfindB :
      ([0, 1] : List ℕ).find? (fun j =>
        decide ((([{ laneActor .Car 0 0 8 "carA" with
          progress := 1/20
          position := pointOnPath 0 (1/20)
          dir := tangentOnPath 0 },
          laneActor .Car 0 (49/50) 8 "carB"] : List Entity).getD j dummyEntity).progress >
          (laneActor .Car 0 (49/50) 8 "carB").progress)) = none := by
    rw [List.find?_cons_of_neg _ (by norm_num [laneActor]),
      List.find?_cons_of_neg _ (by norm_num [laneActor]), List.find?_nil]
  have hnextB : stepNext (1/4) (some ⟨true, true⟩) 0 [0, 1]
      [{ laneActor .Car 0 0 8 "carA" with
          progress := 1/20
          position := pointOnPath 0 (1/20)
          dir := tangentOnPath 0 },
        laneActor .Car 0 (49/50) 8 "carB"] 1 = 3/100 := by
    simp only [stepNext, hgdB]
    rw [gatedProgress_of_green (axisGreen_all_green 0) _ _, hcandB,
      spacedProgress_of_none _ hfindB]
    rw [wrapProgress_of_gt (by norm_num)]
    norm_num
  have hstep1 : stepVehicle (1/4) (some ⟨true, true⟩) 0 [0, 1]
      [{ laneActor .Car 0 0 8 "carA" with
          progress := 1/20
          position := pointOnPath 0 (1/20)
          dir := tangentOnPath 0 },
        laneActor .Car 0 (49/50) 8 "carB"] 1 =
      [{ laneActor .Car 0 0 8 "carA" with
          progress := 1/20
          position := pointOnPath 0 (1/20)
          dir := tangentOnPath 0 },
        { laneActor .Car 0 (49/50) 8 "carB" with
          progress := 3/100
          position := pointOnPath 0 (3/100)
          dir := tangentOnPath 0 }] := by
    rw [stepVehicle_eq, hnextB, hgdB]
    rfl
  rw [hpair, hstep0, hstep1]
  refine ⟨by norm_num [laneActor, minSpacing], rfl, rfl, rfl, rfl, rfl, rfl,
    by norm_num [minSpacing]⟩

/-- C6 amended: for a single active lane-bound actor alone on its lane
with a green signal and nonzero speed, one `update(dt)` call advances its
progress by exactly speed·dt/laneLength, *provided the candidate does not
exceed 1* (otherwise the wrap-around policy applies, see the
counterexample). -/
theorem single_actor_exact_advance {c : ℕ} (hc : c < 8) (ty : EntityType)
    (hty : ty ≠ EntityType.Pedestrian) {v : ℚ} (hv : v ≠ 0) (p dt : ℚ) (nm : String)
    (hwrap : p + v * dt / (ROAD_EXTENT * 2) ≤ 1) :
    ((update dt (some ⟨true, true⟩) [laneActor ty c p v nm]).getD 0 dummyEntity).progress =
      p + v * dt / (ROAD_EXTENT * 2) := by
  rw [singleton_green_update hc hty hv p dt nm]
  show wrapProgress (p + v * dt / 40) = p + v * dt / (ROAD_EXTENT * 2)
  rw [show (ROAD_EXTENT * 2 : ℚ) = 40 by norm_num [ROAD_EXTENT]] at hwrap ⊢
  exact wrapProgress_of_le hwrap

/-- Witness for the amended C6 at the spec's concrete scenario: speed 8,
lane length 40, dt = 1, progress 0 → the progress advances by exactly
8·1/40 = 0.2. -/
theorem single_actor_exact_advance_witness :
    (0 : ℚ) + 8 * 1 / (ROAD_EXTENT * 2) ≤ 1 ∧
    ((update 1 (some ⟨true, true⟩) [laneActor .Car 0 0 8 "w6"]).getD 0
      dummyEntity).progress = 0 + 8 * 1 / (ROAD_EXTENT * 2) :=
  ⟨by norm_num [ROAD_EXTENT],
    single_actor_exact_advance (by norm_num) .Car (by decide) (by norm_num) 0 1 "w6"
      (by norm_num [ROAD_EXTENT])⟩

/-- C5 amended: path completion has no kind dispatch — when the candidate
progress of a single lane-bound actor (of *any* non-pedestrian kind:
Car, Truck or Bicycle) exceeds 1, the actor wraps to candidate − 1 (not
to exactly 0) and remains active; lane-bound Bicycles do not despawn. -/
theorem wrap_policy_uniform {c : ℕ} (hc : c < 8) (ty : EntityType)
    (hty : ty ≠ EntityType.Pedestrian) {v : ℚ} (hv : v ≠ 0) (p dt : ℚ) (nm : String)
    (hover : 1 < p + v * dt / (ROAD_EXTENT * 2)) :
    ((update dt (some ⟨true, true⟩) [laneActor ty c p v nm]).getD 0 dummyEntity).progress =
      p + v * dt / (ROAD_EXTENT * 2) - 1 ∧
    ((update dt (some ⟨true, true⟩) [laneActor ty c p v nm]).getD 0 dummyEntity).active =
      true := by
  rw [singleton_green_update hc hty hv p dt nm]
  rw [show (ROAD_EXTENT * 2 : ℚ) = 40 by norm_num [ROAD_EXTENT]] at hover ⊢
  constructor
  · show wrapProgress (p + v * dt / 40) = p + v * dt / 40 - 1
    exact wrapProgress_of_gt hover
  · rfl

/-- Witness for the amended C5: the Bicycle of the counterexample
(progress 0.9, speed 7, dt = 1, candidate 1.075) wraps to 0.075 and is
still active. -/
theorem wrap_policy_uniform_witness :
    1 < (9 : ℚ)/10 + 7 * 1 / (ROAD_EXTENT * 2) ∧
    ((update 1 (some ⟨true, true⟩) [laneActor .Bicycle 0 (9/10) 7 "w5"]).getD 0
      dummyEntity).progress = 9/10 + 7 * 1 / (ROAD_EXTENT * 2) - 1 ∧
    ((update 1 (some ⟨true, true⟩) [laneActor .Bicycle 0 (9/10) 7 "w5"]).getD 0
      dummyEntity).active = true := by
  have h := wrap_policy_uniform (c := 0) (by norm_num) .Bicycle (by decide)
    (v := 7) (by norm_num) (9/10) 1 "w5" (by norm_num [ROAD_EXTENT])
  exact ⟨by norm_num [ROAD_EXTENT], h.1, h.2⟩

/-- C2 amended: the stop-line gate works in world space: when the
actor's axis signal is not green, its current world coordinate along the
travel axis is strictly outside the footprint (|pos| > STOP_LINE) and
the candidate world coordinate lands inside it (|pos + dir·speed·dt| ≤
STOP_LINE), a single `update` holds the actor at its current progress.
(For dt large enough that the candidate jumps *past* the footprint the
gate does not fire — see the counterexample.) -/
theorem stop_line_holds_on_entering {c : ℕ} (hc : c < 8) (ent : Entity)
    (ha : ent.active = true) (ht : ent.type ≠ EntityType.Pedestrian)
    (hp : ent.pathId = (c : Int)) (dt : ℚ) (lights : Option Lights)
    (hg : axisGreen c lights = false)
    (hout : |axisPos c ent| > STOP_LINE)
    (hin : |axisPos c ent + axisDir c ent * effSpeed ent * dt| ≤ STOP_LINE)
    (hp1 : ent.progress ≤ 1) :
    ((update dt lights [ent]).getD 0 dummyEntity).progress = ent.progress := by
  rw [update_singleton hc ent ha ht hp dt lights]
  show wrapProgress (gatedProgress dt lights c ent) = ent.progress
  rw [gatedProgress_hold hg hout hin]
  exact wrapProgress_of_le hp1

/-- Witness for the amended C2: a car on lane 0 at z = −5 (progress 3/8),
NS red, dt = 0.25: the candidate z is −3, inside the footprint, so the
actor is held at progress 3/8. -/
theorem stop_line_holds_on_entering_witness :
    axisGreen 0 (some ⟨false, true⟩) = false ∧
    |axisPos 0 (laneActor .Car 0 (3/8) 8 "w2")| > STOP_LINE ∧
    |axisPos 0 (laneActor .Car 0 (3/8) 8 "w2") +
      axisDir 0 (laneActor .Car 0 (3/8) 8 "w2") *
        effSpeed (laneActor .Car 0 (3/8) 8 "w2") * (1/4)| ≤ STOP_LINE ∧
    ((update (1/4) (some ⟨false, true⟩) [laneActor .Car 0 (3/8) 8 "w2"]).getD 0
      dummyEntity).progress = (laneActor .Car 0 (3/8) 8 "w2").progress := by
  have hap : axisPos 0 (laneActor .Car 0 (3/8) 8 "w2") = -5 := by
    show (pointOnPath 0 (3/8)).z = -5
    rw [pointOnPath_zero]
    norm_num
  have had : axisDir 0 (laneActor .Car 0 (3/8) 8 "w2") = 1 := by
    show (tangentOnPath 0).z = 1
    rw [tangentOnPath_zero]
  have heff : effSpeed (laneActor .Car 0 (3/8) 8 "w2") = 8 := by
    norm_num [effSpeed, laneActor]
  have hout : |axisPos 0 (laneActor .Car 0 (3/8) 8 "w2")| > STOP_LINE := by
    rw [hap]
    norm_num [STOP_LINE, INTERSECTION_SIZE]
  have hin : |axisPos 0 (laneActor .Car 0 (3/8) 8 "w2") +
      axisDir 0 (laneActor .Car 0 (3/8) 8 "w2") *
        effSpeed (laneActor .Car 0 (3/8) 8 "w2") * (1/4)| ≤ STOP_LINE := by
    rw [hap, had, heff]
    norm_num [STOP_LINE, INTERSECTION_SIZE]
  exact ⟨rfl, hout, hin,
    stop_line_holds_on_entering (c := 0) (by norm_num) _ rfl (by decide) rfl (1/4)
      (some ⟨false, true⟩) rfl hout hin (by norm_num [laneActor])⟩

/-- C7 amended: the countdown accessor is a pure function of the
controller state returning a non-negative integer; it equals
`max 0 (round-half-up(remaining seconds))`, which for positive remaining
time lies between ⌈remaining⌉ − 1 and ⌈remaining⌉ — it is *not* always
the ceiling (see the counterexample). -/
theorem countdown_nonneg_round_bounds (s : TrafficLightsState) :
    0 ≤ getCountdownSecRounded s ∧
    (0 < remainingSec s →
      ⌈remainingSec s⌉ - 1 ≤ getCountdownSecRounded s ∧
      getCountdownSecRounded s ≤ ⌈remainingSec s⌉) := by
  constructor
  · exact le_max_left 0 _
  · intro hr
    have h1 : ⌈remainingSec s⌉ - 1 ≤ jsRound (remainingSec s) := by
      rw [jsRound]
      have hcf := Int.ceil_le_floor_add_one (remainingSec s)
      have hmono : ⌊remainingSec s⌋ ≤ ⌊remainingSec s + 1/2⌋ :=
        Int.floor_le_floor (by linarith)
      omega
    have h2 : jsRound (remainingSec s) ≤ ⌈remainingSec s⌉ := by
      rw [jsRound]
      by_contra hcon
      push_neg at hcon
      have hle : ((⌈remainingSec s⌉ + 1 : ℤ) : ℚ) ≤ remainingSec s + 1/2 := by
        exact_mod_cast Int.le_floor.mp (by omega)
      have hceil := Int.le_ceil (remainingSec s)
      push_cast at hle
      linarith
    have hcpos : (1 : ℤ) ≤ ⌈remainingSec s⌉ := Int.ceil_pos.mpr hr
    have hge0 : 0 ≤ jsRound (remainingSec s) := by omega
    rw [getCountdownSecRounded, max_eq_right hge0]
    exact ⟨h1, h2⟩

/-- Witness for the amended C7, at the initial controller state
(remaining = 4 s > 0): countdown 4 is non-negative and within
[⌈4⌉ − 1, ⌈4⌉]. -/
theorem countdown_nonneg_round_bounds_witness :
    0 < remainingSec TrafficLightsState.start ∧
    0 ≤ getCountdownSecRounded TrafficLightsState.start ∧
    ⌈remainingSec TrafficLightsState.start⌉ - 1 ≤
      getCountdownSecRounded TrafficLightsState.start ∧
    getCountdownSecRounded TrafficLightsState.start ≤
      ⌈remainingSec TrafficLightsState.start⌉ := by
  have hpos : 0 < remainingSec TrafficLightsState.start := by
    norm_num [remainingSec, currentPhase, PHASES, TrafficLightsState.start]
  have h := countdown_nonneg_round_bounds TrafficLightsState.start
  exact ⟨hpos, h.1, (h.2 hpos).1, (h.2 hpos).2⟩

/-- The deterministic processing order the code actually implements:
progress strictly ascending, with exact ties kept in pool-slot order. -/
def slotKeyLex (key : ℕ → ℚ) (i j : ℕ) : Prop :=
  key i < key j ∨ (key i = key j ∧ i < j)

theorem pairwise_insertKeyed (key : ℕ → ℚ) (a : ℕ) :
    ∀ l : List ℕ, List.Pairwise (slotKeyLex key) l → (∀ b ∈ l, a < b) →
      List.Pairwise (slotKeyLex key) (insertKeyed key a l) := by
  intro l
  induction l with
  | nil =>
    intro _ _
    simp [insertKeyed]
  | cons c t ih =>
    intro hpw hidx
    rcases List.pairwise_cons.mp hpw with ⟨hct, htt⟩
    by_cases hk : key a ≤ key c
    · rw [insertKeyed, if_pos hk]
      refine List.pairwise_cons.mpr ⟨?_, hpw⟩
      intro b hb
      have hab : a < b := hidx b hb
      have hkey : key a ≤ key b := by
        rcases List.mem_cons.mp hb with rfl | hbt
        · exact hk
        · rcases hct b hbt with h | h
          · exact le_trans hk (le_of_lt h)
          · exact le_trans hk (le_of_eq h.1)
      rcases lt_or_eq_of_le hkey with h | h
      · exact Or.inl h
      · exact Or.inr ⟨h, hab⟩
    · rw [insertKeyed, if_neg hk]
      push_neg at hk
      refine List.pairwise_cons.mpr
        ⟨?_, ih htt (fun b hb => hidx b (List.mem_cons_of_mem c hb))⟩
      intro b hb
      rcases (mem_insertKeyed key a b t).mp hb with rfl | hbt
      · exact Or.inl hk
      · exact hct b hbt

theorem pairwise_sortKeyed (key : ℕ → ℚ) :
    ∀ l : List ℕ, List.Pairwise (· < ·) l →
      List.Pairwise (slotKeyLex key) (sortKeyed key l) := by
  intro l
  induction l with
  | nil =>
    intro _
    exact List.Pairwise.nil
  | cons a t ih =>
    intro h
    rcases List.pairwise_cons.mp h with ⟨hat, htt⟩
    show List.Pairwise _ (insertKeyed key a (sortKeyed key t))
    apply pairwise_insertKeyed key a _ (ih htt)
    intro b hb
    exact hat b ((mem_sortKeyed key b t).mp hb)

/-- C9 amended: for every pool and lane, the per-lane processing order is
deterministic (a pure function of the pool) and pairwise ordered by
progress ascending with exact-progress ties broken by *pool slot order*
(the stability of `Array.prototype.sort`), not by id. -/
theorem laneOrder_sorted_stable (pool : List Entity) (lane : ℕ) :
    List.Pairwise (slotKeyLex fun i => (pool.getD i dummyEntity).progress)
      (laneOrder pool lane) := by
  rw [laneOrder]
  apply pairwise_sortKeyed
  exact (List.pairwise_lt_range pool.length).filter _

/-! ### Pool exhaustion (spawn) -/

theorem getD_mem {α : Type} : ∀ (l : List α) (i : ℕ), i < l.length → ∀ d : α,
    l.getD i d ∈ l := by
  intro l
  induction l with
  | nil => intro i hi d; simp at hi
  | cons b t ih =>
    intro i hi d
    cases i with
    | zero => simp
    | succ i =>
      rw [List.getD_cons_succ]
      exact List.mem_cons_of_mem b (ih i (by simpa using hi) d)

theorem getD_eq_getElem {α : Type} {l : List α} {i : ℕ} (h : i < l.length) (d : α) :
    l.getD i d = l[i] := by
  rw [List.getD_eq_getElem?_getD, List.getElem?_eq_getElem h]
  rfl

theorem findFreeIdx_none_iff (pool : List Entity) :
    findFreeIdx pool = none ↔ ∀ e ∈ pool, e.active = true := by
  rw [findFreeIdx, List.find?_eq_none]
  constructor
  · intro h e he
    rcases List.mem_iff_getElem.mp he with ⟨i, hi, rfl⟩
    have hne := h i (List.mem_range.mpr hi)
    rw [getD_eq_getElem hi] at hne
    simpa using hne
  · intro h i hi
    have hilen := List.mem_range.mp hi
    have hact : (pool.getD i dummyEntity).active = true :=
      h _ (getD_mem pool i hilen dummyEntity)
    have hact' : (pool[i]?.getD dummyEntity).active = true := by
      rw [← List.getD_eq_getElem?_getD]
      exact hact
    simp [hact']

theorem spawnedEntity_active (opts : SpawnOptions) (r : SpawnRand) (pool : List Entity)
    (i : ℕ) : (spawnedEntity opts r pool i).active = true := by
  rw [spawnedEntity]
  split_ifs <;> rfl

theorem activeCount_cons (e : Entity) (t : List Entity) :
    activeCount (e :: t) = (if e.active then 1 else 0) + activeCount t := by
  rw [activeCount, activeCount, List.filter_cons]
  split_ifs with h
  · simp only [List.length_cons]
    omega
  · omega

theorem activeCount_set_activate :
    ∀ (pool : List Entity) (i : ℕ) (e : Entity), i < pool.length →
      (pool.getD i dummyEntity).active = false → e.active = true →
      activeCount (pool.set i e) = activeCount pool + 1 := by
  intro pool
  induction pool with
  | nil => intro i e hi; simp at hi
  | cons b t ih =>
    intro i e hi hold hnew
    cases i with
    | zero =>
      rw [List.getD_cons_zero] at hold
      rw [List.set_cons_zero, activeCount_cons, activeCount_cons, hold, hnew]
      simp
      omega
    | succ i =>
      rw [List.getD_cons_succ] at hold
      rw [List.set_cons_succ, activeCount_cons, activeCount_cons,
        ih i e (by simpa using hi) hold hnew]
      omega

/-- The spec's capacity-4 scenario: spawn options forcing kind Car on
lane 0, and the four progress draws 0, 0.1, 0.2, 0.3. -/
def carOpts : SpawnOptions := ⟨some .Car, some 0, none⟩

def carRand (p : ℚ) : SpawnRand := ⟨"car", 0, p, 0, 0⟩

def scenarioPool4 : List Entity :=
  (spawn carOpts (carRand (3/10))
    (spawn carOpts (carRand (2/10))
      (spawn carOpts (carRand (1/10))
        (spawn carOpts (carRand 0) (mkEngine 4)).2).2).2).2

/-- C4: `spawn` fails with the `PoolExhausted` signal (`null`, modelled as
`none`) exactly when no slot is free; on success it consumes one free
slot (the active count grows by one) and the pool length never changes.
Concretely, after a capacity-4 pool is filled with 4 Cars on lane 0 at
progresses 0, 0.1, 0.2, 0.3, a 5th spawn returns the failure value. -/
theorem spawn_pool_exhaustion :
    (∀ (opts : SpawnOptions) (r : SpawnRand) (pool : List Entity),
      ((spawn opts r pool).1 = none ↔ ∀ e ∈ pool, e.active = true) ∧
      (spawn opts r pool).2.length = pool.length ∧
      ((spawn opts r pool).1.isSome = true →
        activeCount (spawn opts r pool).2 = activeCount pool + 1)) ∧
    (spawn carOpts (carRand (2/5)) scenarioPool4).1 = none ∧
    scenarioPool4.length = 4 ∧
    activeCount scenarioPool4 = 4 := by
  refine ⟨?_, by decide, by decide, by decide⟩
  intro opts r pool
  cases hf : findFreeIdx pool with
  | none =>
    have hall := (findFreeIdx_none_iff pool).mp hf
    rw [spawn, hf]
    exact ⟨iff_of_true rfl hall, rfl, by simp⟩
  | some i =>
    have hi : i < pool.length := by
      have hmem := List.mem_of_find?_eq_some hf
      exact List.mem_range.mp hmem
    have hinact : (pool.getD i dummyEntity).active = false := by
      have hp := List.find?_some hf
      simpa using hp
    rw [spawn, hf]
    refine ⟨?_, by simp, ?_⟩
    · simp only
      constructor
      · intro habs
        exact absurd habs (by simp)
      · intro hall
        have hcontr := hall _ (getD_mem pool i hi dummyEntity)
        rw [hcontr] at hinact
        simp at hinact
    · intro _
      exact activeCount_set_activate pool i _ hi hinact
        (spawnedEntity_active opts r pool i)

/-- Witness for C4's success clause: on a capacity-2 pool with a free
slot, spawn succeeds and the active count grows by exactly one. -/
theorem spawn_pool_exhaustion_witness :
    (spawn carOpts (carRand 0) (mkEngine 2)).1.isSome = true ∧
    activeCount (spawn carOpts (carRand 0) (mkEngine 2)).2 =
      activeCount (mkEngine 2) + 1 :=
  ⟨by decide,
    (spawn_pool_exhaustion.1 carOpts (carRand 0) (mkEngine 2)).2.2 (by decide)⟩

theorem minSpacing_pos : (0 : ℚ) < minSpacing := by norm_num [minSpacing]

/-! ### Spacing preservation across a whole lane -/

/-- A symmetric reading of a one-sided gap: if `a` is at least `s` behind
`b`, the two progresses are at least `s` apart. -/
theorem abs_gap_ge {a b s : ℚ} (h : a + s ≤ b) (hs : 0 ≤ s) : s ≤ |a - b| := by
  rw [abs_sub_comm, abs_of_nonneg (by linarith : (0 : ℚ) ≤ b - a)]
  linarith

/-- When every slot of the pool is an active non-pedestrian actor of
lane `c`, the lane filter keeps every slot. -/
theorem laneIndices_all {pool : List Entity} {c : ℕ}
    (hgood : ∀ e ∈ pool, e.active = true ∧ e.type ≠ EntityType.Pedestrian ∧
      e.pathId = (c : Int)) :
    laneIndices pool c = List.range pool.length := by
  rw [laneIndices]
  apply List.filter_eq_self.mpr
  intro i hi
  have hlt : i < pool.length := List.mem_range.mp hi
  obtain ⟨ha, ht, hp⟩ := hgood (pool.getD i dummyEntity) (getD_mem pool i hlt dummyEntity)
  show ((pool.getD i dummyEntity).active &&
      (pool.getD i dummyEntity).pathId == (c : Int) &&
      !((pool.getD i dummyEntity).type == EntityType.Pedestrian)) = true
  rw [ha, hp]
  simp [beq_iff_eq]
  rw [List.getD_eq_getElem?_getD] at ht
  exact ht

/-- The committed progress of the actor processed next.  If every
already-processed actor sits at least `minSpacing` below this actor's
pre-update progress, the still-untouched successor (if any) is at least
`minSpacing` ahead with its pre-update progress and nobody wraps, then
the actor commits a progress between its own pre-update value and
`minSpacing` below the successor's pre-update value. -/
theorem spacing_step (dt : ℚ) (lights : Option Lights) (c : ℕ) (pool : List Entity)
    (order done rest : List ℕ) (k : ℕ) (S : List Entity)
    (horder : order = done ++ k :: rest)
    (hdt : 0 ≤ dt)
    (hks : 0 ≤ (pool.getD k dummyEntity).speed)
    (hkcand : candidateProgress dt (pool.getD k dummyEntity) ≤ 1)
    (hkS : S.getD k dummyEntity = pool.getD k dummyEntity)
    (hdonelow : ∀ i ∈ done, (S.getD i dummyEntity).progress + minSpacing ≤
      (pool.getD k dummyEntity).progress)
    (hrestS : ∀ j ∈ rest.head?, S.getD j dummyEntity = pool.getD j dummyEntity)
    (hrestgt : ∀ j ∈ rest.head?, (pool.getD k dummyEntity).progress + minSpacing ≤
      (pool.getD j dummyEntity).progress)
    (hrestub : ∀ j ∈ rest.head?, (pool.getD j dummyEntity).progress ≤ 1) :
    (pool.getD k dummyEntity).progress ≤ stepNext dt lights c order S k ∧
    stepNext dt lights c order S k ≤ 1 ∧
    (∀ j ∈ rest.head?, stepNext dt lights c order S k + minSpacing ≤
      (pool.getD j dummyEntity).progress) := by
  have hsp := minSpacing_pos
  obtain ⟨hgge, hgle⟩ := @gatedProgress_bounds c lights (pool.getD k dummyEntity) dt hdt hks
  have hfind : order.find? (fun j =>
      decide ((S.getD j dummyEntity).progress > (S.getD k dummyEntity).progress)) =
      rest.find? (fun j =>
        decide ((S.getD j dummyEntity).progress > (S.getD k dummyEntity).progress)) := by
    rw [horder, List.find?_append]
    have h1 : done.find? (fun j =>
        decide ((S.getD j dummyEntity).progress > (S.getD k dummyEntity).progress)) =
        none := by
      apply List.find?_eq_none.mpr
      intro i hi habs
      have hgt : (S.getD i dummyEntity).progress > (S.getD k dummyEntity).progress :=
        of_decide_eq_true habs
      rw [hkS] at hgt
      have hlow := hdonelow i hi
      linarith
    rw [h1, Option.none_or, List.find?_cons_of_neg]
    intro habs
    have hgt : (S.getD k dummyEntity).progress > (S.getD k dummyEntity).progress :=
      of_decide_eq_true habs
    exact lt_irrefl _ hgt
  cases rest with
  | nil =>
    have hfind0 : order.find? (fun j =>
        decide ((S.getD j dummyEntity).progress > (S.getD k dummyEntity).progress)) =
        none := by
      rw [hfind, List.find?_nil]
    have hsn : stepNext dt lights c order S k =
        wrapProgress (gatedProgress dt lights c (S.getD k dummyEntity)) := by
      show wrapProgress (spacedProgress S order (S.getD k dummyEntity)
        (gatedProgress dt lights c (S.getD k dummyEntity))) =
        wrapProgress (gatedProgress dt lights c (S.getD k dummyEntity))
      rw [spacedProgress_of_none _ hfind0]
    rw [hsn, hkS, wrapProgress_of_le (le_trans hgle hkcand)]
    refine ⟨hgge, le_trans hgle hkcand, ?_⟩
    intro j hj
    simp at hj
  | cons j0 rest2 =>
    have hSj0 : S.getD j0 dummyEntity = pool.getD j0 dummyEntity := hrestS j0 rfl
    have hgt0 : (pool.getD k dummyEntity).progress + minSpacing ≤
        (pool.getD j0 dummyEntity).progress := hrestgt j0 rfl
    have hub0 : (pool.getD j0 dummyEntity).progress ≤ 1 := hrestub j0 rfl
    have hfind1 : order.find? (fun j =>
        decide ((S.getD j dummyEntity).progress > (S.getD k dummyEntity).progress)) =
        some j0 := by
      rw [hfind, List.find?_cons_of_pos]
      have hgt : (S.getD j0 dummyEntity).progress > (S.getD k dummyEntity).progress := by
        rw [hSj0, hkS]
        linarith
      exact decide_eq_true hgt
    have hsn : stepNext dt lights c order S k =
        wrapProgress (if (S.getD j0 dummyEntity).progress -
            gatedProgress dt lights c (S.getD k dummyEntity) < minSpacing then
          max (S.getD k dummyEntity).progress
            ((S.getD j0 dummyEntity).progress - minSpacing)
        else gatedProgress dt lights c (S.getD k dummyEntity)) := by
      show wrapProgress (spacedProgress S order (S.getD k dummyEntity)
        (gatedProgress dt lights c (S.getD k dummyEntity))) = _
      rw [spacedProgress_of_some _ hfind1]
    rw [hsn, hSj0, hkS]
    by_cases hcl : (pool.getD j0 dummyEntity).progress -
        gatedProgress dt lights c (pool.getD k dummyEntity) < minSpacing
    · rw [if_pos hcl]
      have hm1 : (pool.getD k dummyEntity).progress ≤
          (pool.getD j0 dummyEntity).progress - minSpacing := by linarith
      rw [max_eq_right hm1, wrapProgress_of_le (by linarith)]
      refine ⟨hm1, by linarith, ?_⟩
      intro j hj
      have hj0 : j0 = j := by simpa using hj
      subst hj0
      linarith
    · rw [if_neg hcl]
      push_neg at hcl
      rw [wrapProgress_of_le (by linarith)]
      refine ⟨hgge, by linarith, ?_⟩
      intro j hj
      have hj0 : j0 = j := by simpa using hj
      subst hj0
      linarith

/-- The lane fold maintains spacing: processing the remaining actors of a
strictly spaced, progress-sorted order list keeps every already-committed
actor within its slot's bounds and commits the rest in order. -/
theorem spacing_fold (dt : ℚ) (lights : Option Lights) (c : ℕ) (pool : List Entity)
    (order : List ℕ)
    (hdt : 0 ≤ dt)
    (hspeed : ∀ e ∈ pool, 0 ≤ e.speed)
    (hub : ∀ e ∈ pool, e.progress ≤ 1)
    (hcand : ∀ e ∈ pool, candidateProgress dt e ≤ 1)
    (hmem : ∀ j ∈ order, j < pool.length)
    (hsorted : List.Pairwise (fun i j => (pool.getD i dummyEntity).progress + minSpacing ≤
      (pool.getD j dummyEntity).progress) order)
    (hnodup : order.Nodup) :
    ∀ (todo done : List ℕ) (S : List Entity),
      order = done ++ todo →
      S.length = pool.length →
      (∀ j ∈ todo, S.getD j dummyEntity = pool.getD j dummyEntity) →
      (∀ j ∈ done, (pool.getD j dummyEntity).progress ≤ (S.getD j dummyEntity).progress ∧
        (S.getD j dummyEntity).progress ≤ 1) →
      List.Pairwise (fun i j => (S.getD i dummyEntity).progress + minSpacing ≤
        (S.getD j dummyEntity).progress) done →
      (∀ k ∈ todo.head?, ∀ i ∈ done, (S.getD i dummyEntity).progress + minSpacing ≤
        (pool.getD k dummyEntity).progress) →
      (todo.foldl (fun p i => stepVehicle dt lights c order p i) S).length = pool.length ∧
      (∀ j ∈ order, (pool.getD j dummyEntity).progress ≤
        ((todo.foldl (fun p i => stepVehicle dt lights c order p i) S).getD j
          dummyEntity).progress ∧
        ((todo.foldl (fun p i => stepVehicle dt lights c order p i) S).getD j
          dummyEntity).progress ≤ 1) ∧
      List.Pairwise (fun i j =>
        ((todo.foldl (fun p i => stepVehicle dt lights c order p i) S).getD i
          dummyEntity).progress + minSpacing ≤
        ((todo.foldl (fun p i => stepVehicle dt lights c order p i) S).getD j
          dummyEntity).progress) order := by
  intro todo
  induction todo with
  | nil =>
    intro done S horder hlen huntouched hbounds hpair hhead
    rw [List.append_nil] at horder
    subst horder
    simp only [List.foldl_nil]
    exact ⟨hlen, hbounds, hpair⟩
  | cons k rest ih =>
    intro done S horder hlen huntouched hbounds hpair hhead
    have hsp := minSpacing_pos
    have hnd : (done ++ k :: rest).Nodup := by rw [← horder]; exact hnodup
    obtain ⟨_, hnd_kr, hdisj⟩ := List.nodup_append.mp hnd
    have hk_rest : k ∉ rest := (List.nodup_cons.mp hnd_kr).1
    have hk_done : k ∉ done := fun hkd => hdisj hkd (List.mem_cons_self k rest)
    have hsort : List.Pairwise (fun i j => (pool.getD i dummyEntity).progress + minSpacing ≤
        (pool.getD j dummyEntity).progress) (done ++ k :: rest) := by
      rw [← horder]; exact hsorted
    obtain ⟨_, hsort_kr, _⟩ := List.pairwise_append.mp hsort
    obtain ⟨hkr_gt, _⟩ := List.pairwise_cons.mp hsort_kr
    have hkord : k ∈ order := by
      rw [horder]; exact List.mem_append_right _ (List.mem_cons_self k rest)
    have hkn : k < pool.length := hmem k hkord
    have hkS : S.getD k dummyEntity = pool.getD k dummyEntity :=
      huntouched k (List.mem_cons_self k rest)
    have hkmem : pool.getD k dummyEntity ∈ pool := getD_mem pool k hkn dummyEntity
    have hmemrest : ∀ j ∈ rest, j < pool.length := by
      intro j hj
      apply hmem j
      rw [horder]
      exact List.mem_append_right _ (List.mem_cons_of_mem k hj)
    obtain ⟨hqlow, hqub, hqhead⟩ := spacing_step dt lights c pool order done rest k S
      horder hdt (hspeed _ hkmem) (hcand _ hkmem) hkS
      (hhead k rfl)
      (fun j hj => huntouched j (List.mem_cons_of_mem k (List.mem_of_mem_head? hj)))
      (fun j hj => hkr_gt j (List.mem_of_mem_head? hj))
      (fun j hj => hub _
        (getD_mem pool j (hmemrest j (List.mem_of_mem_head? hj)) dummyEntity))
    simp only [List.foldl_cons]
    have hstepv : stepVehicle dt lights c order S k =
        S.set k
          { pool.getD k dummyEntity with
            progress := stepNext dt lights c order S k
            position := pointOnPath c (stepNext dt lights c order S k)
            dir := tangentOnPath c } := by
      rw [stepVehicle_eq, hkS]
    rw [hstepv]
    set T := S.set k
      { pool.getD k dummyEntity with
        progress := stepNext dt lights c order S k
        position := pointOnPath c (stepNext dt lights c order S k)
        dir := tangentOnPath c } with hTdef
    have hklenS : k < S.length := by rw [hlen]; exact hkn
    have hTp : (T.getD k dummyEntity).progress = stepNext dt lights c order S k := by
      rw [hTdef, getD_set_self S k _ dummyEntity hklenS]
    have hTne : ∀ j, j ≠ k → T.getD j dummyEntity = S.getD j dummyEntity := by
      intro j hj
      rw [hTdef]
      exact getD_set_ne S k j _ dummyEntity fun h => hj h.symm
    have hTlen : T.length = pool.length := by
      rw [hTdef, List.length_set]
      exact hlen
    have horderT : order = (done ++ [k]) ++ rest := by
      rw [horder, List.append_cons]
    have huntouchedT : ∀ j ∈ rest, T.getD j dummyEntity = pool.getD j dummyEntity := by
      intro j hj
      have hjk : j ≠ k := fun h => hk_rest (h ▸ hj)
      rw [hTne j hjk]
      exact huntouched j (List.mem_cons_of_mem k hj)
    have hboundsT : ∀ j ∈ done ++ [k],
        (pool.getD j dummyEntity).progress ≤ (T.getD j dummyEntity).progress ∧
        (T.getD j dummyEntity).progress ≤ 1 := by
      intro j hj
      rcases List.mem_append.mp hj with hjd | hjk
      · have hjne : j ≠ k := fun h => hk_done (h ▸ hjd)
        rw [hTne j hjne]
        exact hbounds j hjd
      · have hjk2 : j = k := List.mem_singleton.mp hjk
        rw [hjk2, hTp]
        exact ⟨hqlow, hqub⟩
    have hpairT : List.Pairwise (fun i j => (T.getD i dummyEntity).progress + minSpacing ≤
        (T.getD j dummyEntity).progress) (done ++ [k]) := by
      rw [List.pairwise_append]
      refine ⟨?_, List.pairwise_singleton _ _, ?_⟩
      · refine List.Pairwise.imp_of_mem ?_ hpair
        intro a b ha hb hab
        have hane : a ≠ k := fun h => hk_done (h ▸ ha)
        have hbne : b ≠ k := fun h => hk_done (h ▸ hb)
        rw [hTne a hane, hTne b hbne]
        exact hab
      · intro a ha b hb
        have hbk : b = k := List.mem_singleton.mp hb
        have hane : a ≠ k := fun h => hk_done (h ▸ ha)
        rw [hbk, hTne a hane, hTp]
        have h1 := hhead k rfl a ha
        linarith
    have hheadT : ∀ k0 ∈ rest.head?, ∀ i ∈ done ++ [k],
        (T.getD i dummyEntity).progress + minSpacing ≤
        (pool.getD k0 dummyEntity).progress := by
      intro k0 hk0 i hi
      have hk0r : k0 ∈ rest := List.mem_of_mem_head? hk0
      have hkk0 : (pool.getD k dummyEntity).progress + minSpacing ≤
          (pool.getD k0 dummyEntity).progress := hkr_gt k0 hk0r
      rcases List.mem_append.mp hi with hid | hik
      · have hine : i ≠ k := fun h => hk_done (h ▸ hid)
        rw [hTne i hine]
        have h1 := hhead k rfl i hid
        linarith
      · have hik2 : i = k := List.mem_singleton.mp hik
        rw [hik2, hTp]
        exact hqhead k0 hk0
    exact ih (done ++ [k]) T horderT hTlen huntouchedT hboundsT hpairT hheadT

/-- C1 amended: the per-tick spacing clamp maintains the invariant for a
whole lane, with any number of actors.  On a lane of `c < 8` whose slots
are all active non-pedestrian actors of that lane, if before the tick
every pair of actors is at least `minSpacing` apart, speeds and `dt` are
non-negative, every progress is at most 1, and no actor's candidate
progress exceeds 1 this tick (so the wrap branch stays dormant), then
after `update` returns every pair of actors is still at least
`minSpacing` apart.  Without the no-wrap and pre-state conditions the
invariant can break (see the counterexample). -/
theorem spacing_preserved_lane {c : ℕ} (hc : c < 8) (pool : List Entity) (dt : ℚ)
    (lights : Option Lights)
    (hgood : ∀ e ∈ pool, e.active = true ∧ e.type ≠ EntityType.Pedestrian ∧
      e.pathId = (c : Int))
    (hspeed : ∀ e ∈ pool, 0 ≤ e.speed)
    (hdt : 0 ≤ dt)
    (hub : ∀ e ∈ pool, e.progress ≤ 1)
    (hcand : ∀ e ∈ pool, candidateProgress dt e ≤ 1)
    (hgap : List.Pairwise (fun a b => minSpacing ≤ |a.progress - b.progress|) pool) :
    List.Pairwise (fun a b => minSpacing ≤ |a.progress - b.progress|)
      (update dt lights pool) := by
  have hsp := minSpacing_pos
  have hall : allOnLane pool c := fun e he _ => (hgood e he).2.2
  have hnp : nonPed pool := fun e he => (hgood e he).2.1
  have hidx : laneIndices pool c = List.range pool.length := laneIndices_all hgood
  have hlex := laneOrder_sorted_stable pool c
  have hmemord : ∀ j ∈ laneOrder pool c, j < pool.length := by
    intro j hj
    rw [laneOrder, hidx] at hj
    exact List.mem_range.mp ((mem_sortKeyed _ j _).mp hj)
  have hnodup : (laneOrder pool c).Nodup := by
    have h2 : List.Pairwise (fun a b : ℕ => a ≠ b) (laneOrder pool c) := by
      refine List.Pairwise.imp_of_mem ?_ hlex
      intro a b _ _ hab heq
      subst heq
      rcases hab with h | ⟨_, h⟩ <;> exact lt_irrefl _ h
    exact h2
  have hgapi : ∀ i j, i < pool.length → j < pool.length → i ≠ j →
      minSpacing ≤ |(pool.getD i dummyEntity).progress -
        (pool.getD j dummyEntity).progress| := by
    intro i j hi hj hne
    rcases lt_or_gt_of_ne hne with hlt | hgt
    · have h := List.pairwise_iff_getElem.mp hgap i j hi hj hlt
      rwa [getD_eq_getElem hi dummyEntity, getD_eq_getElem hj dummyEntity]
    · have h := List.pairwise_iff_getElem.mp hgap j i hj hi hgt
      rw [getD_eq_getElem hi dummyEntity, getD_eq_getElem hj dummyEntity, abs_sub_comm]
      exact h
  have hsorted : List.Pairwise (fun i j =>
      (pool.getD i dummyEntity).progress + minSpacing ≤
        (pool.getD j dummyEntity).progress) (laneOrder pool c) := by
    refine List.Pairwise.imp_of_mem ?_ hlex
    intro a b ha hb hab
    have hane : a ≠ b := by
      intro heq
      subst heq
      rcases hab with h | ⟨_, h⟩ <;> exact lt_irrefl _ h
    have hg := hgapi a b (hmemord a ha) (hmemord b hb) hane
    rcases hab with h | ⟨h, _⟩
    · have h2 : (pool.getD a dummyEntity).progress < (pool.getD b dummyEntity).progress := h
      rw [abs_sub_comm, abs_of_nonneg (by linarith)] at hg
      linarith
    · have h2 : (pool.getD a dummyEntity).progress = (pool.getD b dummyEntity).progress := h
      rw [h2, sub_self, abs_zero] at hg
      linarith
  have hres := spacing_fold dt lights c pool (laneOrder pool c) hdt hspeed hub hcand
    hmemord hsorted hnodup (laneOrder pool c) [] pool rfl rfl
    (fun j _ => rfl) (fun j hj => absurd hj (List.not_mem_nil j)) List.Pairwise.nil
    (fun k _ i hi => absurd hi (List.not_mem_nil i))
  rw [update_allOnLane hall hc hnp dt lights, updateLane_eq]
  set F := (laneOrder pool c).foldl
    (fun p i => stepVehicle dt lights c (laneOrder pool c) p i) pool with hFdef
  obtain ⟨hFlen, hFb, hFpair⟩ := hres
  rw [List.pairwise_iff_getElem]
  intro i j hi hj hij
  have hiP : i < pool.length := by rw [← hFlen]; exact hi
  have hjP : j < pool.length := by rw [← hFlen]; exact hj
  have hio : i ∈ laneOrder pool c := by
    rw [laneOrder, hidx]
    exact (mem_sortKeyed _ i _).mpr (List.mem_range.mpr hiP)
  have hjo : j ∈ laneOrder pool c := by
    rw [laneOrder, hidx]
    exact (mem_sortKeyed _ j _).mpr (List.mem_range.mpr hjP)
  have hsymm : Symmetric (fun a b : ℕ => minSpacing ≤
      |(F.getD a dummyEntity).progress - (F.getD b dummyEntity).progress|) := by
    intro x y hxy
    rwa [abs_sub_comm]
  have hFpairAbs : List.Pairwise (fun a b : ℕ => minSpacing ≤
      |(F.getD a dummyEntity).progress - (F.getD b dummyEntity).progress|)
      (laneOrder pool c) := by
    refine List.Pairwise.imp_of_mem ?_ hFpair
    intro a b _ _ hab
    exact abs_gap_ge hab (le_of_lt hsp)
  have habs := List.Pairwise.forall hsymm hFpairAbs hio hjo (Nat.ne_of_lt hij)
  rwa [getD_eq_getElem hi dummyEntity, getD_eq_getElem hj dummyEntity] at habs

/-- Witness for the amended C1: three cars on lane 0 at progresses 0.2,
0.5 and 0.8 with speed 8 and dt = 1 — pre-update gaps 0.3, 0.3 and 0.6,
every candidate progress at most 1 — stay pairwise at least `minSpacing`
apart after `update`. -/
theorem spacing_preserved_lane_witness :
    List.Pairwise (fun a b => minSpacing ≤ |a.progress - b.progress|)
      [laneActor .Car 0 (1/5) 8 "nA", laneActor .Car 0 (1/2) 8 "nB",
        laneActor .Car 0 (4/5) 8 "nC"] ∧
    (∀ e ∈ [laneActor .Car 0 (1/5) 8 "nA", laneActor .Car 0 (1/2) 8 "nB",
        laneActor .Car 0 (4/5) 8 "nC"], candidateProgress 1 e ≤ 1) ∧
    List.Pairwise (fun a b => minSpacing ≤ |a.progress - b.progress|)
      (update 1 none [laneActor .Car 0 (1/5) 8 "nA", laneActor .Car 0 (1/2) 8 "nB",
        laneActor .Car 0 (4/5) 8 "nC"]) := by
  have hpre : List.Pairwise (fun a b => minSpacing ≤ |a.progress - b.progress|)
      [laneActor .Car 0 (1/5) 8 "nA", laneActor .Car 0 (1/2) 8 "nB",
        laneActor .Car 0 (4/5) 8 "nC"] := by
    refine List.pairwise_cons.mpr
      ⟨?_, List.pairwise_cons.mpr ⟨?_, List.pairwise_singleton _ _⟩⟩
    · intro b hb
      rcases List.mem_cons.mp hb with rfl | hbB
      · exact abs_gap_ge (show (1 : ℚ)/5 + minSpacing ≤ 1/2 by norm_num [minSpacing])
          (le_of_lt minSpacing_pos)
      · rcases List.mem_singleton.mp hbB with rfl
        exact abs_gap_ge (show (1 : ℚ)/5 + minSpacing ≤ 4/5 by norm_num [minSpacing])
          (le_of_lt minSpacing_pos)
    · intro b hb
      rcases List.mem_singleton.mp hb with rfl
      exact abs_gap_ge (show (1 : ℚ)/2 + minSpacing ≤ 4/5 by norm_num [minSpacing])
        (le_of_lt minSpacing_pos)
  have hcands : ∀ e ∈ [laneActor .Car 0 (1/5) 8 "nA", laneActor .Car 0 (1/2) 8 "nB",
      laneActor .Car 0 (4/5) 8 "nC"], candidateProgress 1 e ≤ 1 := by
    intro e he
    rcases List.mem_cons.mp he with rfl | heB
    · rw [candidateProgress_eval (by norm_num) _ _ _ _ _]
      norm_num
    · rcases List.mem_cons.mp heB with rfl | heC
      · rw [candidateProgress_eval (by norm_num) _ _ _ _ _]
        norm_num
      · rcases List.mem_singleton.mp heC with rfl
        rw [candidateProgress_eval (by norm_num) _ _ _ _ _]
        norm_num
  refine ⟨hpre, hcands, ?_⟩
  exact spacing_preserved_lane (c := 0) (by norm_num)
    [laneActor .Car 0 (1/5) 8 "nA", laneActor .Car 0 (1/2) 8 "nB",
      laneActor .Car 0 (4/5) 8 "nC"] 1 none
    (by
      intro e he
      rcases List.mem_cons.mp he with rfl | heB
      · exact ⟨rfl, by decide, rfl⟩
      · rcases List.mem_cons.mp heB with rfl | heC
        · exact ⟨rfl, by decide, rfl⟩
        · rcases List.mem_singleton.mp heC with rfl
          exact ⟨rfl, by decide, rfl⟩)
    (by
      intro e he
      rcases List.mem_cons.mp he with rfl | heB
      · norm_num [laneActor]
      · rcases List.mem_cons.mp heB with rfl | heC
        · norm_num [laneActor]
        · rcases List.mem_singleton.mp heC with rfl
          norm_num [laneActor])
    (by norm_num)
    (by
      intro e he
      rcases List.mem_cons.mp he with rfl | heB
      · norm_num [laneActor]
      · rcases List.mem_cons.mp heB with rfl | heC
        · norm_num [laneActor]
        · rcases List.mem_singleton.mp heC with rfl
          norm_num [laneActor])
    hcands hpre


/-! ### The progress-bounds invariant -/

/-- An actor slot subject to the bounds invariant: active, lane-bound on
a valid lane, not a pedestrian. -/
def goodEnt (e : Entity) : Prop :=
  e.active = true ∧ e.type ≠ EntityType.Pedestrian ∧ 0 ≤ e.pathId ∧ e.pathId < 8

/-- The bounds invariant of the spec: every active lane-bound actor has
progress in [0, 1]. -/
def boundsInv (pool : List Entity) : Prop :=
  ∀ e ∈ pool, goodEnt e → 0 ≤ e.progress ∧ e.progress ≤ 1

/-- Per-tick speed budget: each active lane-bound actor moves at most one
full lane length (so the single wrap step suffices). -/
def speedBound (dt : ℚ) (pool : List Entity) : Prop :=
  ∀ e ∈ pool, goodEnt e → 0 ≤ e.speed ∧ effSpeed e * dt ≤ ROAD_EXTENT * 2

theorem getD_mem_of_good {pool : List Entity} {i : ℕ}
    (hg : goodEnt (pool.getD i dummyEntity)) : pool.getD i dummyEntity ∈ pool := by
  rcases getD_mem_or_eq pool i dummyEntity with hm | hd
  · exact hm
  · rw [hd] at hg
    exact absurd hg.1 (by simp [dummyEntity])

theorem stepVehicle_getD_flags (dt : ℚ) (lights : Option Lights) (lane : ℕ)
    (order : List ℕ) (pool : List Entity) (i j : ℕ) :
    ((stepVehicle dt lights lane order pool i).getD j dummyEntity).active =
      (pool.getD j dummyEntity).active ∧
    ((stepVehicle dt lights lane order pool i).getD j dummyEntity).type =
      (pool.getD j dummyEntity).type ∧
    ((stepVehicle dt lights lane order pool i).getD j dummyEntity).pathId =
      (pool.getD j dummyEntity).pathId ∧
    ((stepVehicle dt lights lane order pool i).getD j dummyEntity).speed =
      (pool.getD j dummyEntity).speed := by
  rw [stepVehicle_eq]
  by_cases hij : j = i
  · subst hij
    by_cases hlen : j < pool.length
    · rw [getD_set_self _ _ _ _ hlen]
      exact ⟨rfl, rfl, rfl, rfl⟩
    · push_neg at hlen
      rw [List.getD_eq_default _ _ (by rw [List.length_set]; exact hlen),
        List.getD_eq_default _ _ hlen]
      exact ⟨rfl, rfl, rfl, rfl⟩
  · rw [getD_set_ne _ _ _ _ _ (fun h => hij h.symm)]
    exact ⟨rfl, rfl, rfl, rfl⟩

theorem stepNext_bounds (dt : ℚ) (lights : Option Lights) (lane : ℕ) (order : List ℕ)
    (pool : List Entity) (i : ℕ)
    (hdt : 0 ≤ dt) (hb : boundsInv pool)
    (horder : ∀ j ∈ order, goodEnt (pool.getD j dummyEntity))
    (hent : goodEnt (pool.getD i dummyEntity))
    (hsp : 0 ≤ (pool.getD i dummyEntity).speed)
    (hsb : effSpeed (pool.getD i dummyEntity) * dt ≤ ROAD_EXTENT * 2) :
    0 ≤ stepNext dt lights lane order pool i ∧
      stepNext dt lights lane order pool i ≤ 1 := by
  obtain ⟨hp0, hp1⟩ := hb _ (getD_mem_of_good hent) hent
  have hδ : effSpeed (pool.getD i dummyEntity) * dt / (ROAD_EXTENT * 2) ≤ 1 := by
    rw [div_le_one (by norm_num [ROAD_EXTENT])]
    exact hsb
  have hδ0 : 0 ≤ effSpeed (pool.getD i dummyEntity) * dt / (ROAD_EXTENT * 2) := by
    apply div_nonneg (mul_nonneg (effSpeed_nonneg hsp) hdt)
    norm_num [ROAD_EXTENT]
  have hcand2 : candidateProgress dt (pool.getD i dummyEntity) ≤ 2 := by
    rw [candidateProgress]
    linarith
  obtain ⟨hgge, hgle⟩ :=
    @gatedProgress_bounds lane lights (pool.getD i dummyEntity) dt hdt hsp
  rw [show stepNext dt lights lane order pool i =
    wrapProgress (spacedProgress pool order (pool.getD i dummyEntity)
      (gatedProgress dt lights lane (pool.getD i dummyEntity))) from rfl]
  cases hfind : (order.find? fun j =>
      decide ((pool.getD j dummyEntity).progress >
        (pool.getD i dummyEntity).progress)) with
  | none =>
    rw [spacedProgress_of_none _ hfind, wrapProgress]
    split_ifs with hw
    · constructor <;> linarith
    · push_neg at hw
      constructor <;> linarith
  | some j =>
    have hjgood : goodEnt (pool.getD j dummyEntity) :=
      horder j (List.mem_of_find?_eq_some hfind)
    obtain ⟨hj0, hj1⟩ := hb _ (getD_mem_of_good hjgood) hjgood
    rw [spacedProgress_of_some _ hfind]
    split_ifs with hcl
    · rw [wrapProgress]
      split_ifs with hw
      · exfalso
        have hmax : max (pool.getD i dummyEntity).progress
            ((pool.getD j dummyEntity).progress - minSpacing) ≤ 1 := by
          apply max_le hp1
          linarith [minSpacing_pos]
        linarith
      · push_neg at hw
        exact ⟨le_trans hp0 (le_max_left _ _), hw⟩
    · rw [wrapProgress]
      split_ifs with hw
      · constructor <;> linarith
      · push_neg at hw
        constructor <;> linarith

theorem stepVehicle_inv (dt : ℚ) (lights : Option Lights) (lane : ℕ) (order : List ℕ)
    (pool : List Entity) (i : ℕ)
    (hdt : 0 ≤ dt) (hb : boundsInv pool) (hs : speedBound dt pool)
    (horder : ∀ j ∈ order, goodEnt (pool.getD j dummyEntity)) :
    boundsInv (stepVehicle dt lights lane order pool i) ∧
    speedBound dt (stepVehicle dt lights lane order pool i) ∧
    (∀ j ∈ order, goodEnt ((stepVehicle dt lights lane order pool i).getD j dummyEntity)) := by
  have hentcase : ∀ e' ∈ stepVehicle dt lights lane order pool i,
      e' ∈ pool ∨ e' = { pool.getD i dummyEntity with
        progress := stepNext dt lights lane order pool i
        position := pointOnPath lane (stepNext dt lights lane order pool i)
        dir := tangentOnPath lane } := by
    intro e' he'
    rw [stepVehicle_eq] at he'
    exact List.mem_or_eq_of_mem_set he'
  refine ⟨?_, ?_, ?_⟩
  · intro e' he' hg'
    rcases hentcase e' he' with hm | rfl
    · exact hb e' hm hg'
    · have hgent : goodEnt (pool.getD i dummyEntity) := by
        rcases hg' with ⟨h1, h2, h3, h4⟩
        exact ⟨h1, h2, h3, h4⟩
      obtain ⟨hsp, hsb⟩ := hs _ (getD_mem_of_good hgent) hgent
      exact stepNext_bounds dt lights lane order pool i hdt hb horder hgent hsp hsb
  · intro e' he' hg'
    rcases hentcase e' he' with hm | rfl
    · exact hs e' hm hg'
    · have hgent : goodEnt (pool.getD i dummyEntity) := by
        rcases hg' with ⟨h1, h2, h3, h4⟩
        exact ⟨h1, h2, h3, h4⟩
      exact hs (pool.getD i dummyEntity) (getD_mem_of_good hgent) hgent
  · intro j hj
    obtain ⟨h1, h2, h3, _⟩ := stepVehicle_getD_flags dt lights lane order pool i j
    have hgj := horder j hj
    rw [goodEnt] at hgj ⊢
    rw [h1, h2, h3]
    exact hgj

theorem foldl_pres_mem {α β : Type} (f : α → β → α) (P : α → Prop) :
    ∀ l : List β, (∀ s x, x ∈ l → P s → P (f s x)) → ∀ s, P s → P (l.foldl f s) := by
  intro l
  induction l with
  | nil => intro _ s hs; exact hs
  | cons x t ih =>
    intro h s hs
    exact ih (fun s' y hy => h s' y (List.mem_cons_of_mem x hy)) (f s x)
      (h s x (List.mem_cons_self x t) hs)

theorem updateLane_inv (dt : ℚ) (lights : Option Lights) (lane : ℕ) (pool : List Entity)
    (hdt : 0 ≤ dt) (hlane : lane < 8)
    (hb : boundsInv pool) (hs : speedBound dt pool) :
    boundsInv (updateLane dt lights lane pool) ∧
      speedBound dt (updateLane dt lights lane pool) := by
  have horder0 : ∀ j ∈ laneOrder pool lane, goodEnt (pool.getD j dummyEntity) := by
    intro j hj
    have hj' : j ∈ laneIndices pool lane := (mem_sortKeyed _ j _).mp hj
    rw [laneIndices] at hj'
    rcases List.mem_filter.mp hj' with ⟨_, hpred⟩
    rcases Bool.and_eq_true_iff.mp hpred with ⟨h12, h3⟩
    rcases Bool.and_eq_true_iff.mp h12 with ⟨h1, h2⟩
    have hpid : (pool.getD j dummyEntity).pathId = (lane : Int) := eq_of_beq h2
    refine ⟨h1, ?_, ?_, ?_⟩
    · intro habs
      rw [Bool.not_eq_true'] at h3
      rw [habs] at h3
      simp at h3
    · rw [hpid]
      exact Int.natCast_nonneg lane
    · rw [hpid]
      exact_mod_cast hlane
  rw [updateLane_eq]
  have hfold := foldl_pres (fun p i => stepVehicle dt lights lane (laneOrder pool lane) p i)
    (fun p => boundsInv p ∧ speedBound dt p ∧
      ∀ j ∈ laneOrder pool lane, goodEnt (p.getD j dummyEntity))
    (fun p i hp =>
      stepVehicle_inv dt lights lane (laneOrder pool lane) p i hdt hp.1 hp.2.1 hp.2.2)
    (laneOrder pool lane) pool ⟨hb, hs, horder0⟩
  exact ⟨hfold.1, hfold.2.1⟩

theorem pedStep_fields (dt : ℚ) (e : Entity) :
    (pedStep dt e).progress = e.progress ∧ (pedStep dt e).active = e.active ∧
    (pedStep dt e).type = e.type ∧ (pedStep dt e).pathId = e.pathId := by
  rw [pedStep]
  dsimp only
  split_ifs <;> exact ⟨rfl, rfl, rfl, rfl⟩

theorem boundsInv_map_pedStep {pool : List Entity} (dt : ℚ) (hb : boundsInv pool) :
    boundsInv (pool.map (pedStep dt)) := by
  intro e' he' hg'
  rcases List.mem_map.mp he' with ⟨e, he, rfl⟩
  obtain ⟨hpr, hac, hty, hpa⟩ := pedStep_fields dt e
  have hge : goodEnt e := by
    rcases hg' with ⟨h1, h2, h3, h4⟩
    rw [hac] at h1
    rw [hty] at h2
    rw [hpa] at h3 h4
    exact ⟨h1, h2, h3, h4⟩
  rw [hpr]
  exact hb e he hge

theorem update_inv (dt : ℚ) (lights : Option Lights) (pool : List Entity)
    (hdt : 0 ≤ dt) (hb : boundsInv pool) (hs : speedBound dt pool) :
    boundsInv (update dt lights pool) := by
  rw [update]
  apply boundsInv_map_pedStep
  have hfold := foldl_pres_mem (fun p lane => updateLane dt lights lane p)
    (fun p => boundsInv p ∧ speedBound dt p) (List.range PATHS.length)
    (fun p lane hlane hp => by
      have hl8 : lane < 8 := List.mem_range.mp hlane
      exact updateLane_inv dt lights lane p hdt hl8 hp.1 hp.2)
    pool ⟨hb, hs⟩
  exact hfold.1

theorem boundsInv_mkEngine (n : ℕ) : boundsInv (mkEngine n) := by
  intro e he _
  rcases List.mem_map.mp he with ⟨i, _, rfl⟩
  constructor <;> norm_num [initialSlot]

theorem boundsInv_spawn (opts : SpawnOptions) (r : SpawnRand) (pool : List Entity)
    (hb : boundsInv pool) (h0 : 0 ≤ r.progress) (h1 : r.progress < 1) :
    boundsInv (spawn opts r pool).2 := by
  cases hf : findFreeIdx pool with
  | none =>
    rw [spawn, hf]
    exact hb
  | some i =>
    rw [spawn, hf]
    intro e' he' hg'
    rcases List.mem_or_eq_of_mem_set he' with hm | rfl
    · exact hb e' hm hg'
    · rw [spawnedEntity]
      split_ifs with hty
      · exact ⟨le_refl 0, show (0 : ℚ) ≤ 1 by norm_num⟩
      · exact ⟨h0, le_of_lt h1⟩

/-- C3 amended: the progress-bounds invariant holds at construction, is
preserved by `spawn` whenever the random initial progress draw lies in
[0, 1) (as `Math.random()` guarantees), and is preserved by `update`
*provided* every active lane-bound actor's effective speed satisfies
speed·dt ≤ laneLength (one wrap per tick then suffices; for larger dt
the single `next -= 1` is not enough — see the counterexample). -/
theorem progress_bounds_invariant :
    (∀ n : ℕ, boundsInv (mkEngine n)) ∧
    (∀ (opts : SpawnOptions) (r : SpawnRand) (pool : List Entity),
      boundsInv pool → 0 ≤ r.progress → r.progress < 1 →
      boundsInv (spawn opts r pool).2) ∧
    (∀ (dt : ℚ) (lights : Option Lights) (pool : List Entity),
      0 ≤ dt → boundsInv pool → speedBound dt pool →
      boundsInv (update dt lights pool)) :=
  ⟨boundsInv_mkEngine, boundsInv_spawn,
    fun dt lights pool hdt hb hs => update_inv dt lights pool hdt hb hs⟩

/-- Witness for the amended C3: a one-car pool at progress 1/2 with
speed 8 and dt = 1 satisfies the hypotheses, and after `update` the
bounds invariant still holds. -/
theorem progress_bounds_invariant_witness :
    (0 : ℚ) ≤ 1 ∧ boundsInv [laneActor .Car 0 (1/2) 8 "w3"] ∧
    speedBound 1 [laneActor .Car 0 (1/2) 8 "w3"] ∧
    boundsInv (update 1 none [laneActor .Car 0 (1/2) 8 "w3"]) := by
  have hb : boundsInv [laneActor .Car 0 (1/2) 8 "w3"] := by
    intro e he _
    rcases List.mem_singleton.mp he with rfl
    constructor <;> norm_num [laneActor]
  have hs : speedBound 1 [laneActor .Car 0 (1/2) 8 "w3"] := by
    intro e he _
    rcases List.mem_singleton.mp he with rfl
    constructor
    · norm_num [laneActor]
    · norm_num [effSpeed, laneActor, ROAD_EXTENT]
  exact ⟨by norm_num, hb, hs,
    progress_bounds_invariant.2.2 1 none _ (by norm_num) hb hs⟩
